import Mathlib

/-!
Shallow embedding of the `bespoke` service runtime orchestrator
(`runtime/services/service.go`) and proofs about its specification.

The embedding models:
* the registration phase (`Bootstrapper.AddServer`, `AddJob`,
  `AddJobAndOnStartup`, `Defer`, `addDebugServer`), where fatal
  registration errors (`slogFatal` + `os.Exit(1)`) are represented by
  `Except.error`;
* the main-goroutine control flow of `Run` as an event trace
  (`runTrace`), parameterised over the outcomes of user code and over
  the nondeterministic iteration order of Go maps;
* the per-job scheduler loop `runJob` as an event trace over a
  nondeterministic schedule (`JobWorld`), reflecting that Go's
  `select` chooses uniformly at random among ready cases;
* the real-time behaviour of `time.NewTicker` inside `runJob` as a
  discrete-time schedule of invocation start times (`startTime`).
-/

set_option autoImplicit false

namespace Bespoke

/-- Equality on `Except` is decidable when it is on both components; used
so that concrete registration outcomes can be checked by `decide`. -/
instance {ε α : Type} [DecidableEq ε] [DecidableEq α] : DecidableEq (Except ε α) :=
  fun x y =>
    match x, y with
    | .ok a, .ok b =>
      if h : a = b then .isTrue (by rw [h]) else .isFalse (by simp [h])
    | .error a, .error b =>
      if h : a = b then .isTrue (by rw [h]) else .isFalse (by simp [h])
    | .ok _, .error _ => .isFalse (by simp)
    | .error _, .ok _ => .isFalse (by simp)

/-- Splits a character list at every colon, as used to model
`net.SplitHostPort` for bracket-free addresses. -/
def splitOnColon : List Char → List (List Char)
  | [] => [[]]
  | c :: rest =>
    let r := splitOnColon rest
    if c = ':' then [] :: r
    else
      match r with
      | [] => [[c]]
      | h :: t => (c :: h) :: t

/-- Model of Go `net.SplitHostPort` restricted to bracket-free (non-IPv6)
addresses: the address must contain exactly one colon, the host is the part
before it and the port the part after it; otherwise an error is returned
(Go reports "missing port in address" or "too many colons in address"). -/
def splitHostPort (addr : String) : Except String (String × String) :=
  match splitOnColon addr.data with
  | [h, p] => .ok (⟨h⟩, ⟨p⟩)
  | _ => .error "address error"

/-- Decimal value of a digit list, accumulator style. -/
def digitsVal (l : List Char) : Nat :=
  l.foldl (fun n c => n * 10 + (c.toNat - 48)) 0

/-- Model of Go `strconv.Atoi` on a character list: an optional sign
followed by a nonempty run of decimal digits; anything else is a syntax
error. -/
def atoiChars : List Char → Except String Int
  | [] => .error "invalid syntax"
  | '-' :: rest =>
    if rest ≠ [] ∧ rest.all (fun c => c.isDigit) then
      .ok (-(digitsVal rest : Int))
    else .error "invalid syntax"
  | '+' :: rest =>
    if rest ≠ [] ∧ rest.all (fun c => c.isDigit) then
      .ok (digitsVal rest : Int)
    else .error "invalid syntax"
  | l =>
    if l.all (fun c => c.isDigit) then
      .ok (digitsVal l : Int)
    else .error "invalid syntax"

/-- Model of Go `strconv.Atoi` (overflow ignored; ports are small). -/
def atoi (s : String) : Except String Int :=
  atoiChars s.data

/-- Model of `*http.Server`: the orchestrator only inspects its `Addr`
field; the handler is irrelevant to the claims. -/
structure GoServer where
  addr : String
  deriving DecidableEq, Repr

/-- Model of the `job` struct of `service.go`. `interval` is a
`time.Duration` (an integer number of nanoseconds, possibly nonpositive);
the invocation closure is identified by an opaque id `fnId`. -/
structure GoJob where
  name : String
  interval : Int
  fnId : Nat
  deriving DecidableEq, Repr

/-- Model of the `Bootstrapper` struct. Go maps `servers` and `jobs` are
modelled as association lists in insertion order (Go map iteration order
is nondeterministic and is parameterised separately where it matters);
`startupJobs` and `deferFns` are slices, kept in append order. -/
structure Bootstrapper where
  servers : List (Int × GoServer) := []
  jobs : List (String × GoJob) := []
  startupJobs : List GoJob := []
  deferFns : List Nat := []
  deriving DecidableEq, Repr

/-- The empty `Bootstrapper` created at the top of `Run` (`b := &Bootstrapper{}`). -/
def Bootstrapper.empty : Bootstrapper := {}

/-- Model of `Bootstrapper.AddServer`: parse the port out of `srv.Addr`
(fatal on parse failure), reject a duplicate port fatally, otherwise
insert the server keyed by its port. `Except.error` stands for
`slogFatal`, which logs and calls `os.Exit(1)`. -/
def Bootstrapper.AddServer (b : Bootstrapper) (srv : GoServer) : Except String Bootstrapper :=
  match splitHostPort srv.addr with
  | .error _ => .error "Failed to split host and port"
  | .ok (_, port) =>
    match atoi port with
    | .error _ => .error "Failed to convert port to int"
    | .ok portInt =>
      if (b.servers.lookup portInt).isSome then
        .error "server already added"
      else
        .ok { b with servers := b.servers ++ [(portInt, srv)] }

/-- Model of `Bootstrapper.AddJob`: reject a duplicate job name fatally,
otherwise insert the job keyed by its name. Note that the interval is
not validated here — the Go code performs no check on it. -/
def Bootstrapper.AddJob (b : Bootstrapper) (name : String) (interval : Int) (fnId : Nat) :
    Except String Bootstrapper :=
  if (b.jobs.lookup name).isSome then
    .error "job already added"
  else
    .ok { b with jobs := b.jobs ++ [(name, ⟨name, interval, fnId⟩)] }

/-- Model of `Bootstrapper.AddJobAndOnStartup`: `AddJob` followed by
appending `b.jobs[name]` to the startup list. -/
def Bootstrapper.AddJobAndOnStartup (b : Bootstrapper) (name : String) (interval : Int)
    (fnId : Nat) : Except String Bootstrapper :=
  match b.AddJob name interval fnId with
  | .error e => .error e
  | .ok b2 =>
    .ok { b2 with startupJobs := b2.startupJobs ++ [(b2.jobs.lookup name).getD ⟨name, interval, fnId⟩] }

/-- Model of `Bootstrapper.Defer`: append the cleanup closure (identified
by `fnId`) to the deferred list. Never fails. -/
def Bootstrapper.Defer (b : Bootstrapper) (fnId : Nat) : Bootstrapper :=
  { b with deferFns := b.deferFns ++ [fnId] }

/-- Model of `Bootstrapper.addDebugServer`: the port string is
`cmp.Or(os.Getenv("DEBUG_PORT"), "6060")` — the environment value when it
is nonempty (Go `Getenv` returns `""` for an unset variable), `"6060"`
otherwise — and the server is registered through `AddServer` with address
`":" + debugPort`. -/
def Bootstrapper.addDebugServer (b : Bootstrapper) (debugPortEnv : String) :
    Except String Bootstrapper :=
  let debugPort := if debugPortEnv = "" then "6060" else debugPortEnv
  b.AddServer ⟨":" ++ debugPort⟩

/-- A single registration call performed by the user's configuration
function `fn` against the `Bootstrapper` (the repository's public
registration API). -/
inductive RegCall where
  | addServer (addr : String)
  | addJob (name : String) (interval : Int) (fnId : Nat)
  | addJobAndOnStartup (name : String) (interval : Int) (fnId : Nat)
  | deferCall (fnId : Nat)
  deriving DecidableEq, Repr

/-- Interprets one registration call as the corresponding `Bootstrapper`
method. -/
def regStep (b : Bootstrapper) : RegCall → Except String Bootstrapper
  | .addServer addr => b.AddServer ⟨addr⟩
  | .addJob n i f => b.AddJob n i f
  | .addJobAndOnStartup n i f => b.AddJobAndOnStartup n i f
  | .deferCall f => .ok (b.Defer f)

/-- Runs a sequence of registration calls, stopping at the first fatal
registration error (in Go, `slogFatal` inside the call exits the
process, so later calls never run). -/
def runCalls : List RegCall → Bootstrapper → Except String Bootstrapper
  | [], b => .ok b
  | c :: cs, b =>
    match regStep b c with
    | .error e => .error e
    | .ok b2 => runCalls cs b2

/-- Observable events of the main goroutine of `Run`, in program order.
`launchServer`/`launchJob` stand only for the `wg.Add(1)` plus `go`
statement that starts the corresponding execution unit; the unit's own
output — such as the "starting server" log line, which runs inside the
spawned goroutine (service.go:59) — happens later, at a
scheduler-dependent time, and is modelled separately
(`StartLogOrderPossible`). `cancelToken` is `backgroundCancel()`;
`waitAll` is `wg.Wait()`; `fatalExit` is `slogFatal`/`os.Exit(1)`, which
ends the trace. -/
inductive Event where
  | startupJobRun (name : String)
  | fatalExit (msg : String)
  | launchServer (port : Int)
  | launchJob (name : String)
  | cancelToken
  | shutdownAttempt (port : Int)
  | forceClose (port : Int)
  | waitAll
  | runDeferred (idx : Nat) (fnId : Nat)
  | exitOk
  deriving DecidableEq, Repr

/-- The startup-job loop of `Run` (lines 41–47): invoke each startup job
in slice order; a job that returns an error is logged and the process
exits fatally, so later jobs never run. `results i` is the outcome of
the `i`-th startup job's invocation (`none` = success). Returns the
events together with whether the loop survived. -/
def runStartupJobs (results : Nat → Option String) : List GoJob → Nat → List Event × Bool
  | [], _ => ([], true)
  | j :: js, i =>
    match results i with
    | some _ => ([.startupJobRun j.name, .fatalExit "failed to run startup job"], false)
    | none =>
      let r := runStartupJobs results js (i + 1)
      (.startupJobRun j.name :: r.1, r.2)

/-- The per-server shutdown loop of `Run` (lines 86–93), iterated in the
given (nondeterministic Go map) order: each server gets a graceful
`Shutdown(shutdownCtx)` attempt; when that returns an error — including
the context's deadline error after the 5-second timeout — the server is
forcefully closed (`server.Close()`, whose own error is only logged). -/
def shutdownEvents (shutdownRes : Int → Option String) (order : List Int) : List Event :=
  (order.map fun p =>
    match shutdownRes p with
    | none => [Event.shutdownAttempt p]
    | some _ => [Event.shutdownAttempt p, Event.forceClose p]).flatten

/-- The deferred-cleanup loop of `Run` (lines 98–100): run each deferred
closure in slice (registration) order; `idx` is the position in the
slice. -/
def deferEvents : List Nat → Nat → List Event
  | [], _ => []
  | f :: fs, i => Event.runDeferred i f :: deferEvents fs (i + 1)

/-- Model of `slices.Sorted(maps.Keys(b.servers))`: sort the key list
ascending. The input list is whatever (nondeterministic) order Go's map
iterator produced. -/
def sortInts (l : List Int) : List Int :=
  List.insertionSort (· ≤ ·) l

/-- The event trace of `Run`'s main goroutine, parameterised by all the
sources of nondeterminism and by the behaviour of user code:
* `env` — the value of `DEBUG_PORT` (`""` when unset);
* `calls` — the registration calls made by the user's configuration
  function `fn`, and `userErr` — the error `fn` returns after them;
* `startupResults i` — outcome of startup job `i`'s invocation;
* `serverKeysIter` — the order Go's map iterator yields the server keys
  for the launch loop (sorted before use, per `slices.Sorted`);
* `jobIter` — the order the job map is iterated for the launch loop;
* `shutdownIter` — the order the server map is iterated for the
  shutdown loop;
* `shutdownRes p` — result of `server.Shutdown(shutdownCtx)` for port `p`.

The trace covers the path in which every `ListenAndServe` blocks until
closed by the coordinator (a bind failure would exit the process from
inside a server goroutine at an arbitrary interleaving point) and a
termination signal eventually arrives. The second, deferred
`backgroundCancel()` (line 50) runs after `exitOk` and is a no-op on the
already-cancelled token, so it produces no event. -/
def runTrace (env : String) (calls : List RegCall) (userErr : Option String)
    (startupResults : Nat → Option String) (serverKeysIter : List Int)
    (jobIter : List String) (shutdownIter : List Int)
    (shutdownRes : Int → Option String) : List Event :=
  match runCalls calls Bootstrapper.empty with
  | .error msg => [.fatalExit msg]
  | .ok b =>
    match userErr with
    | some _ => [.fatalExit "failed to start service"]
    | none =>
      match b.addDebugServer env with
      | .error msg => [.fatalExit msg]
      | .ok b2 =>
        let started := runStartupJobs startupResults b2.startupJobs 0
        if started.2 then
          started.1
            ++ ((sortInts serverKeysIter).map .launchServer
              ++ (jobIter.map .launchJob
                ++ (Event.cancelToken :: (shutdownEvents shutdownRes shutdownIter
                  ++ (Event.waitAll :: (deferEvents b2.deferFns 0
                    ++ [Event.exitOk]))))))
        else
          started.1

/-- The case Go's `select` in `runJob` (lines 129–133) resolved to:
`ctxDone` is `case <-ctx.Done(): return`, `tick` is `case <-ticker.C:`. -/
inductive SelectPick where
  | ctxDone
  | tick
  deriving DecidableEq, Repr

/-- An error value returned by a job invocation. `causedByToken` is a
ghost attribute recording whether the shared cancellation token was the
cause of the error (e.g. the job returned `ctx.Err()`); the Go code never
inspects the error value itself, only the token's state. -/
structure JobErr where
  detail : String
  causedByToken : Bool
  deriving DecidableEq, Repr

/-- One possible behaviour of the environment of a single `runJob` loop:
the results of the successive invocations of the job function, the
observations of the shared cancellation token, whether a ticker tick was
already pending at each `select`, and which ready case the `select`
picked. -/
structure JobWorld where
  errAt : Nat → Option JobErr
  cancelAtCheck : Nat → Bool
  cancelAtSelect : Nat → Bool
  tickPending : Nat → Bool
  pick : Nat → SelectPick

/-- Which `JobWorld`s are realisable by the Go runtime:
* `select` can resolve to `<-ctx.Done()` only when the token is
  cancelled by the time the `select` resolves;
* when the token is cancelled, `<-ctx.Done()` is immediately ready, so
  `select` can resolve to `<-ticker.C` only if a tick is simultaneously
  pending — and then Go's `select` picks uniformly at random among the
  ready cases, so either pick is possible;
* cancellation is one-shot: once observed it stays observed (the check
  `ctx.Err() == nil` happens before the `select` of the same iteration,
  which happens before the check of the next iteration). -/
def JobWorld.Admissible (w : JobWorld) : Prop :=
  (∀ i, w.pick i = .ctxDone → w.cancelAtSelect i = true) ∧
  (∀ i, w.pick i = .tick → w.cancelAtSelect i = true → w.tickPending i = true) ∧
  (∀ i, w.cancelAtCheck i = true → w.cancelAtSelect i = true) ∧
  (∀ i, w.cancelAtSelect i = true → w.cancelAtCheck (i + 1) = true)

/-- Observable events of one `runJob` execution unit. `fatalPath` and
`tickerPanic` model the only ways such a unit could take the process
down: `runJob` itself contains no `slogFatal` call (so `fatalPath` is
never emitted), while `time.NewTicker` panics when the interval is not
positive. -/
inductive JobEvent where
  | invoke (i : Nat)
  | logJobError (i : Nat) (name : String) (detail : String)
  | exited
  | fatalPath (msg : String)
  | tickerPanic
  deriving DecidableEq, Repr

/-- The error-logging step of `runJob` after invocation `i`: the Go
guard is `if err := fn(ctx); err != nil && ctx.Err() == nil`, so the
error is logged (with the job's name from the slog context and the error
detail) exactly when the invocation returned an error and the shared
token was not yet cancelled at the check — regardless of the error's
cause. -/
def logEvents (w : JobWorld) (name : String) (i : Nat) : List JobEvent :=
  match w.errAt i with
  | some e => if w.cancelAtCheck i then [] else [JobEvent.logJobError i name e.detail]
  | none => []

/-- The loop body of `runJob` (lines 124–134), unfolded `fuel` times
starting at iteration `i`: invoke the job function; if it returned an
error and `ctx.Err() == nil`, log the error; then `select` between
`<-ctx.Done()` (return) and `<-ticker.C` (next iteration). -/
def runJobAux (w : JobWorld) (name : String) : Nat → Nat → List JobEvent
  | 0, _ => []
  | fuel + 1, i =>
    match w.pick i with
    | .ctxDone => JobEvent.invoke i :: (logEvents w name i ++ [JobEvent.exited])
    | .tick => JobEvent.invoke i :: (logEvents w name i ++ runJobAux w name fuel (i + 1))

/-- The trace of `runJob` (lines 118–135): `time.NewTicker(interval)`
panics when the interval is not positive (taking the process down from
inside the job's goroutine); otherwise the loop runs. `fuel` bounds how
many loop iterations are unfolded. -/
def runJob (interval : Int) (w : JobWorld) (name : String) (fuel : Nat) : List JobEvent :=
  if interval ≤ 0 then [JobEvent.tickerPanic]
  else runJobAux w name fuel 0

/-- Smallest multiple of `T` strictly greater than `t`: the time at
which the ticker channel, emptied by a receive at time `t`, next becomes
nonempty (ticks fire at `T, 2T, 3T, …`; ticks that fire while the
1-slot channel is full are dropped). -/
def nextFill (T t : Nat) : Nat := T * (t / T + 1)

/-- Discrete-time schedule of one `runJob` loop for a positive interval
`T` and invocation durations `d i`: returns, for iteration `i`, the pair
(invocation start time, time at which the ticker channel next becomes
nonempty). The first invocation starts immediately at time `0` with the
first tick due at `T`; afterwards the loop blocks in `select` until the
ticker channel is nonempty, so iteration `i+1` starts at the later of
invocation `i`'s completion and the channel's fill time, and the channel
refills at the first tick strictly after that receive. -/
def jobTimes (T : Nat) (d : Nat → Nat) : Nat → Nat × Nat
  | 0 => (0, T)
  | i + 1 =>
    let sf := jobTimes T d i
    let s2 := max (sf.1 + d i) sf.2
    (s2, nextFill T s2)

/-- Start time of the `i`-th invocation of a job with interval `T` and
invocation durations `d`. -/
def startTime (T : Nat) (d : Nat → Nat) (i : Nat) : Nat :=
  (jobTimes T d i).1

/-- Completion time of the `i`-th invocation. -/
def completionTime (T : Nat) (d : Nat → Nat) (i : Nat) : Nat :=
  startTime T d i + d i

/-- Event `a` occurs strictly before every occurrence of event `b` in
the trace `tr`: whenever `b` has occurred within the first `n + 1`
events, `a` had already occurred within the first `n`. -/
def precedesIn {α : Type} (a b : α) (tr : List α) : Prop :=
  ∀ n, b ∈ tr.take (n + 1) → a ∈ tr.take n

/-- The startup-job registrations contained in a call list, in order. -/
def startupOf : RegCall → Option GoJob
  | .addJobAndOnStartup n i f => some ⟨n, i, f⟩
  | _ => none

/-- The deferred-cleanup registrations contained in a call list, in order. -/
def deferOf : RegCall → Option Nat
  | .deferCall f => some f
  | _ => none

example : splitHostPort ":6060" = .ok ("", "6060") := by decide
example : atoi "6060" = .ok 6060 := by decide
example : splitHostPort "localhost" = .error "address error" := by decide
example :
    (Bootstrapper.empty.AddServer ⟨":8080"⟩).bind (fun b => b.AddServer ⟨":8080"⟩)
      = .error "server already added" := by decide

theorem precedesIn_of_split {α : Type} {a b : α} (pre suf : List α)
    (hpre : b ∉ pre) (hab : b ≠ a) : precedesIn a b (pre ++ a :: suf) := by
  intro n hn
  rw [List.take_append_eq_append_take] at hn
  rcases List.mem_append.mp hn with h | h
  · exact absurd (List.mem_of_mem_take h) hpre
  · have h2 : pre.length + 2 ≤ n + 1 := by
      rcases hm : n + 1 - pre.length with _ | k
      · rw [hm] at h
        simp at h
      · rw [hm] at h
        rcases List.mem_cons.mp h with h | h
        · exact absurd h hab
        · have hk : k ≠ 0 := by
            intro h0
            rw [h0] at h
            simp at h
          omega
    rw [List.take_append_eq_append_take]
    refine List.mem_append.mpr (Or.inr ?_)
    have h3 : 1 ≤ n - pre.length := by omega
    rcases hm : n - pre.length with _ | k
    · omega
    · exact List.mem_cons_self a _

theorem lookup_append_of_eq_none {α β : Type} [BEq α] (l₁ l₂ : List (α × β)) (a : α)
    (h : l₁.lookup a = none) : (l₁ ++ l₂).lookup a = l₂.lookup a := by
  induction l₁ with
  | nil => simp
  | cons p t ih =>
    rcases p with ⟨k, v⟩
    rw [List.lookup_cons] at h
    rw [List.cons_append, List.lookup_cons]
    cases hb : a == k
    · rw [hb] at h
      exact ih h
    · rw [hb] at h
      simp at h

theorem lookup_append_of_isSome {α β : Type} [BEq α] (l₁ l₂ : List (α × β)) (a : α)
    (h : (l₁.lookup a).isSome) : (l₁ ++ l₂).lookup a = l₁.lookup a := by
  induction l₁ with
  | nil => simp at h
  | cons p t ih =>
    rcases p with ⟨k, v⟩
    rw [List.lookup_cons] at h
    rw [List.cons_append, List.lookup_cons, List.lookup_cons]
    cases hb : a == k
    · rw [hb] at h
      exact ih h
    · rfl

theorem runStartupJobs_allOk (results : Nat → Option String) (js : List GoJob) (i : Nat)
    (h : ∀ k, k < js.length → results (i + k) = none) :
    runStartupJobs results js i = (js.map (fun j => Event.startupJobRun j.name), true) := by
  induction js generalizing i with
  | nil => simp [runStartupJobs]
  | cons j t ih =>
    have h0 : results i = none := by simpa using h 0 (by simp)
    have ht : runStartupJobs results t (i + 1)
        = (t.map (fun j => Event.startupJobRun j.name), true) := by
      refine ih (i + 1) (fun k hk => ?_)
      have := h (k + 1) (by simpa using Nat.succ_lt_succ hk)
      simpa [Nat.add_assoc, Nat.add_comm 1 k] using this
    rw [runStartupJobs, h0, ht]
    simp

theorem runStartupJobs_failAt (results : Nat → Option String) (js : List GoJob) (i k : Nat)
    (hk : k < js.length) (e : String) (hfail : results (i + k) = some e)
    (hok : ∀ m, m < k → results (i + m) = none) :
    runStartupJobs results js i
      = ((js.take (k + 1)).map (fun j => Event.startupJobRun j.name)
          ++ [Event.fatalExit "failed to run startup job"], false) := by
  induction js generalizing i k with
  | nil => simp at hk
  | cons j t ih =>
    match k with
    | 0 =>
      have h0 : results i = some e := by simpa using hfail
      rw [runStartupJobs, h0]
      simp
    | k + 1 =>
      have h0 : results i = none := by simpa using hok 0 (Nat.succ_pos k)
      have ht : runStartupJobs results t (i + 1)
          = ((t.take (k + 1)).map (fun j => Event.startupJobRun j.name)
              ++ [Event.fatalExit "failed to run startup job"], false) := by
        refine ih (i + 1) k (by simpa using Nat.lt_of_succ_lt_succ hk) ?_ ?_
        · have := hfail
          rw [Nat.add_comm k 1, ← Nat.add_assoc] at this
          exact this
        · intro m hm
          have := hok (m + 1) (Nat.succ_lt_succ hm)
          rw [Nat.add_comm m 1, ← Nat.add_assoc] at this
          exact this
      rw [runStartupJobs, h0, ht]
      simp

theorem runCalls_cons (c : RegCall) (cs : List RegCall) (b : Bootstrapper) :
    runCalls (c :: cs) b
      = match regStep b c with
        | .error e => .error e
        | .ok b2 => runCalls cs b2 := by
  rw [runCalls]

theorem runCalls_cons_ok {c : RegCall} {cs : List RegCall} {b b1 : Bootstrapper}
    (hs : regStep b c = .ok b1) : runCalls (c :: cs) b = runCalls cs b1 := by
  rw [runCalls_cons, hs]

theorem runCalls_cons_error {c : RegCall} {cs : List RegCall} {b : Bootstrapper} {e : String}
    (hs : regStep b c = .error e) : runCalls (c :: cs) b = .error e := by
  rw [runCalls_cons, hs]

theorem regStep_ok_lists {b : Bootstrapper} {c : RegCall} {b1 : Bootstrapper}
    (hs : regStep b c = .ok b1) :
    b1.startupJobs = b.startupJobs ++ (startupOf c).toList
      ∧ b1.deferFns = b.deferFns ++ (deferOf c).toList := by
  rcases c with addr | ⟨n, iv, f⟩ | ⟨n, iv, f⟩ | f
  · have hs2 : Bootstrapper.AddServer b ⟨addr⟩ = .ok b1 := hs
    unfold Bootstrapper.AddServer at hs2
    rcases hsp : splitHostPort addr with e1 | ⟨host, port⟩
    · rw [hsp] at hs2
      simp at hs2
    · rw [hsp] at hs2
      simp only [] at hs2
      rcases hat : atoi port with e2 | portInt
      · rw [hat] at hs2
        simp at hs2
      · rw [hat] at hs2
        simp only [] at hs2
        split at hs2
        · exact absurd hs2 (by simp)
        · rw [Except.ok.injEq] at hs2
          rw [← hs2]
          simp [startupOf, deferOf]
  · have hs2 : Bootstrapper.AddJob b n iv f = .ok b1 := hs
    unfold Bootstrapper.AddJob at hs2
    split at hs2
    · exact absurd hs2 (by simp)
    · rw [Except.ok.injEq] at hs2
      rw [← hs2]
      simp [startupOf, deferOf]
  · have hs2 : Bootstrapper.AddJobAndOnStartup b n iv f = .ok b1 := hs
    unfold Bootstrapper.AddJobAndOnStartup Bootstrapper.AddJob at hs2
    split at hs2
    · exact absurd hs2 (by simp)
    · rename_i b2 hnone
      split at hnone
      · exact absurd hnone (by simp)
      · rename_i hfresh
        rw [Except.ok.injEq] at hnone
        rw [Except.ok.injEq] at hs2
        rw [← hs2, ← hnone]
        have hlk : (b.jobs ++ [(n, (⟨n, iv, f⟩ : GoJob))]).lookup n = some ⟨n, iv, f⟩ := by
          rw [lookup_append_of_eq_none _ _ _ (Option.not_isSome_iff_eq_none.mp hfresh)]
          simp
        simp [hlk, startupOf, deferOf]
  · have hs2 : b.Defer f = b1 := by
      have h3 := hs
      unfold regStep at h3
      rw [Except.ok.injEq] at h3
      exact h3
    rw [← hs2]
    simp [Bootstrapper.Defer, startupOf, deferOf]

theorem runCalls_ok_startupJobs (calls : List RegCall) (b b2 : Bootstrapper)
    (h : runCalls calls b = .ok b2) :
    b2.startupJobs = b.startupJobs ++ calls.filterMap startupOf := by
  induction calls generalizing b with
  | nil =>
    simp [runCalls] at h
    simp [← h]
  | cons c cs ih =>
    rcases hs : regStep b c with e | b1
    · rw [runCalls_cons_error hs] at h
      exact absurd h (by simp)
    · rw [runCalls_cons_ok hs] at h
      rw [ih b1 h, (regStep_ok_lists hs).1]
      rcases c with addr | ⟨n, iv, f⟩ | ⟨n, iv, f⟩ | f <;>
        simp [startupOf]

theorem runCalls_ok_deferFns (calls : List RegCall) (b b2 : Bootstrapper)
    (h : runCalls calls b = .ok b2) :
    b2.deferFns = b.deferFns ++ calls.filterMap deferOf := by
  induction calls generalizing b with
  | nil =>
    simp [runCalls] at h
    simp [← h]
  | cons c cs ih =>
    rcases hs : regStep b c with e | b1
    · rw [runCalls_cons_error hs] at h
      exact absurd h (by simp)
    · rw [runCalls_cons_ok hs] at h
      rw [ih b1 h, (regStep_ok_lists hs).2]
      rcases c with addr | ⟨n, iv, f⟩ | ⟨n, iv, f⟩ | f <;>
        simp [deferOf]

/-- The ports of the registered servers, in insertion order (the key set
of the `servers` map). -/
def portsOf (b : Bootstrapper) : List Int :=
  b.servers.map Prod.fst

theorem shutdownEvents_cons (res : Int → Option String) (p : Int) (order : List Int) :
    shutdownEvents res (p :: order)
      = (match res p with
         | none => [Event.shutdownAttempt p]
         | some _ => [Event.shutdownAttempt p, Event.forceClose p])
        ++ shutdownEvents res order := by
  unfold shutdownEvents
  rw [List.map_cons, List.flatten_cons]

theorem shutdownAttempt_mem_shutdownEvents {res : Int → Option String} {order : List Int}
    {p : Int} (hp : p ∈ order) : Event.shutdownAttempt p ∈ shutdownEvents res order := by
  induction order with
  | nil => simp at hp
  | cons q t ih =>
    rw [shutdownEvents_cons]
    rcases List.mem_cons.mp hp with h | h
    · subst h
      rcases hr : res p with _ | e <;> simp [hr]
    · rcases hr : res q with _ | e <;> simp [hr, ih h]

theorem forceClose_mem_shutdownEvents {res : Int → Option String} {order : List Int}
    {p : Int} {e : String} (hp : p ∈ order) (he : res p = some e) :
    Event.forceClose p ∈ shutdownEvents res order := by
  induction order with
  | nil => simp at hp
  | cons q t ih =>
    rw [shutdownEvents_cons]
    rcases List.mem_cons.mp hp with h | h
    · subst h
      simp [he]
    · rcases hr : res q with _ | e2 <;> simp [hr, ih h]

theorem mem_shutdownEvents_shape {res : Int → Option String} {order : List Int} {ev : Event}
    (h : ev ∈ shutdownEvents res order) :
    ∃ p, p ∈ order ∧ (ev = Event.shutdownAttempt p ∨ ev = Event.forceClose p) := by
  induction order with
  | nil => simp [shutdownEvents] at h
  | cons q t ih =>
    rw [shutdownEvents_cons] at h
    rcases List.mem_append.mp h with h | h
    · refine ⟨q, List.mem_cons_self q t, ?_⟩
      rcases hr : res q with _ | e <;> rw [hr] at h <;> simp at h
      · exact Or.inl h
      · rcases h with h | h
        · exact Or.inl h
        · exact Or.inr h
    · rcases ih h with ⟨p, hp, hshape⟩
      exact ⟨p, List.mem_cons_of_mem q hp, hshape⟩

theorem mem_deferEvents_ge {fns : List Nat} {s j g : Nat}
    (h : Event.runDeferred j g ∈ deferEvents fns s) : s ≤ j := by
  induction fns generalizing s with
  | nil => simp [deferEvents] at h
  | cons f t ih =>
    rw [deferEvents] at h
    rcases List.mem_cons.mp h with h | h
    · simp at h
      omega
    · have := ih (s := s + 1) h
      omega

theorem count_deferEvents_lt {fns : List Nat} {s j g : Nat} (hj : j < s) :
    (deferEvents fns s).count (Event.runDeferred j g) = 0 := by
  refine List.count_eq_zero.mpr (fun h => ?_)
  have := mem_deferEvents_ge h
  omega

theorem count_deferEvents_get (fns : List Nat) (s i : Nat) (hi : i < fns.length) :
    (deferEvents fns s).count (Event.runDeferred (s + i) fns[i]) = 1 := by
  induction fns generalizing s i with
  | nil => simp at hi
  | cons f t ih =>
    match i with
    | 0 =>
      have h0 : (deferEvents t (s + 1)).count (Event.runDeferred s f) = 0 :=
        count_deferEvents_lt (by omega)
      rw [deferEvents, List.count_cons]
      simp [h0]
    | i + 1 =>
      have hi2 : i < t.length := by simpa using Nat.lt_of_succ_lt_succ hi
      have ht := ih (s + 1) i hi2
      have harith : s + 1 + i = s + (i + 1) := by omega
      rw [harith] at ht
      rw [deferEvents, List.count_cons, List.getElem_cons_succ, ht]
      have hne : (Event.runDeferred s f == Event.runDeferred (s + (i + 1)) t[i]) = false := by
        rw [beq_eq_false_iff_ne]
        intro h
        rw [Event.runDeferred.injEq] at h
        exact absurd h.1 (by omega)
      rw [hne]
      simp

theorem sortInts_sorted (l : List Int) : (sortInts l).Sorted (· ≤ ·) :=
  List.sorted_insertionSort _ l

theorem sortInts_perm (l : List Int) : (sortInts l).Perm l :=
  List.perm_insertionSort _ l

theorem sortInts_eq_of_perm {l₁ l₂ : List Int} (h : l₁.Perm l₂) : sortInts l₁ = sortInts l₂ :=
  List.eq_of_perm_of_sorted
    ((sortInts_perm l₁).trans (h.trans (sortInts_perm l₂).symm))
    (sortInts_sorted l₁) (sortInts_sorted l₂)

theorem runTrace_callsError_eq {calls : List RegCall} {m : String}
    (env : String) (userErr : Option String) (startupResults : Nat → Option String)
    (serverKeysIter : List Int) (jobIter : List String) (shutdownIter : List Int)
    (shutdownRes : Int → Option String)
    (hc : runCalls calls Bootstrapper.empty = .error m) :
    runTrace env calls userErr startupResults serverKeysIter jobIter shutdownIter shutdownRes
      = [Event.fatalExit m] := by
  unfold runTrace
  rw [hc]

theorem runTrace_debugError_eq {calls : List RegCall} {b : Bootstrapper} {m : String}
    (env : String) (startupResults : Nat → Option String)
    (serverKeysIter : List Int) (jobIter : List String) (shutdownIter : List Int)
    (shutdownRes : Int → Option String)
    (hc : runCalls calls Bootstrapper.empty = .ok b)
    (hd : b.addDebugServer env = .error m) :
    runTrace env calls none startupResults serverKeysIter jobIter shutdownIter shutdownRes
      = [Event.fatalExit m] := by
  unfold runTrace
  rw [hc]
  simp only []
  rw [hd]

theorem runTrace_success_eq {calls : List RegCall} {b b2 : Bootstrapper}
    (env : String) (startupResults : Nat → Option String)
    (serverKeysIter : List Int) (jobIter : List String) (shutdownIter : List Int)
    (shutdownRes : Int → Option String)
    (hc : runCalls calls Bootstrapper.empty = .ok b)
    (hd : b.addDebugServer env = .ok b2)
    (hok : ∀ k, k < b2.startupJobs.length → startupResults k = none) :
    runTrace env calls none startupResults serverKeysIter jobIter shutdownIter shutdownRes
      = b2.startupJobs.map (fun j => Event.startupJobRun j.name)
        ++ ((sortInts serverKeysIter).map Event.launchServer
          ++ (jobIter.map Event.launchJob
            ++ (Event.cancelToken :: (shutdownEvents shutdownRes shutdownIter
              ++ (Event.waitAll :: (deferEvents b2.deferFns 0
                ++ [Event.exitOk])))))) := by
  unfold runTrace
  rw [hc]
  simp only []
  rw [hd]
  simp only []
  rw [runStartupJobs_allOk startupResults b2.startupJobs 0
    (fun k hk => by simpa using hok k hk)]
  simp

theorem runTrace_startupFail_eq {calls : List RegCall} {b b2 : Bootstrapper} {k : Nat} {e : String}
    (env : String) (startupResults : Nat → Option String)
    (serverKeysIter : List Int) (jobIter : List String) (shutdownIter : List Int)
    (shutdownRes : Int → Option String)
    (hc : runCalls calls Bootstrapper.empty = .ok b)
    (hd : b.addDebugServer env = .ok b2)
    (hk : k < b2.startupJobs.length)
    (hfail : startupResults k = some e)
    (hok : ∀ m, m < k → startupResults m = none) :
    runTrace env calls none startupResults serverKeysIter jobIter shutdownIter shutdownRes
      = (b2.startupJobs.take (k + 1)).map (fun j => Event.startupJobRun j.name)
        ++ [Event.fatalExit "failed to run startup job"] := by
  unfold runTrace
  rw [hc]
  simp only []
  rw [hd]
  simp only []
  rw [runStartupJobs_failAt startupResults b2.startupJobs 0 k hk e
    (by simpa using hfail) (fun m hm => by simpa using hok m hm)]
  simp

theorem lookup_append_single_ne {α β : Type} [BEq α] [LawfulBEq α]
    (l : List (α × β)) (k : α) (v : β) (q : α) (hq : q ≠ k) :
    (l ++ [(k, v)]).lookup q = l.lookup q := by
  induction l with
  | nil =>
    rw [List.nil_append, List.lookup_cons, List.lookup_nil]
    have hb : (q == k) = false := beq_eq_false_iff_ne.mpr hq
    rw [hb]
  | cons p t ih =>
    rcases p with ⟨k2, v2⟩
    rw [List.cons_append, List.lookup_cons, List.lookup_cons]
    cases hb : q == k2
    · exact ih
    · rfl

theorem lookup_append_single_self {α β : Type} [BEq α] [LawfulBEq α]
    (l : List (α × β)) (k : α) (v : β) (h : l.lookup k = none) :
    (l ++ [(k, v)]).lookup k = some v := by
  rw [lookup_append_of_eq_none _ _ _ h]
  simp

theorem AddServer_ok_shape {b b1 : Bootstrapper} {srv : GoServer}
    (h : b.AddServer srv = .ok b1) :
    ∃ host port p, splitHostPort srv.addr = .ok (host, port) ∧ atoi port = .ok p
      ∧ b.servers.lookup p = none
      ∧ b1 = { b with servers := b.servers ++ [(p, srv)] } := by
  unfold Bootstrapper.AddServer at h
  rcases hsp : splitHostPort srv.addr with e1 | ⟨host, port⟩
  · rw [hsp] at h
    simp at h
  · rw [hsp] at h
    simp only [] at h
    rcases hat : atoi port with e2 | p
    · rw [hat] at h
      simp at h
    · rw [hat] at h
      simp only [] at h
      split at h
      · exact absurd h (by simp)
      · rename_i hfresh
        rw [Except.ok.injEq] at h
        exact ⟨host, port, p, rfl, hat, Option.not_isSome_iff_eq_none.mp hfresh, h.symm⟩

theorem AddJob_ok_shape {b b1 : Bootstrapper} {n : String} {iv : Int} {f : Nat}
    (h : b.AddJob n iv f = .ok b1) :
    b.jobs.lookup n = none ∧ b1 = { b with jobs := b.jobs ++ [(n, ⟨n, iv, f⟩)] } := by
  unfold Bootstrapper.AddJob at h
  split at h
  · exact absurd h (by simp)
  · rename_i hfresh
    rw [Except.ok.injEq] at h
    exact ⟨Option.not_isSome_iff_eq_none.mp hfresh, h.symm⟩

theorem mem_logEvents_shape {w : JobWorld} {name : String} {i : Nat} {ev : JobEvent}
    (h : ev ∈ logEvents w name i) : ∃ d, ev = JobEvent.logJobError i name d := by
  unfold logEvents at h
  rcases he : w.errAt i with _ | e <;> rw [he] at h
  · simp at h
  · simp only [] at h
    by_cases hc : w.cancelAtCheck i = true
    · rw [if_pos hc] at h
      simp at h
    · rw [if_neg hc] at h
      rw [List.mem_singleton] at h
      exact ⟨e.detail, h⟩

theorem count_logEvents (w : JobWorld) (name : String) (i : Nat) (d : String) :
    (logEvents w name i).count (JobEvent.logJobError i name d)
      = match w.errAt i with
        | some e => if w.cancelAtCheck i = false ∧ e.detail = d then 1 else 0
        | none => 0 := by
  unfold logEvents
  rcases he : w.errAt i with _ | e
  · simp
  · simp only []
    by_cases hc : w.cancelAtCheck i = true
    · rw [if_pos hc]
      simp [hc]
    · rw [if_neg hc]
      have hcf : w.cancelAtCheck i = false := Bool.eq_false_iff.mpr hc
      by_cases hd : e.detail = d
      · rw [hd]
        simp [hcf, hd]
      · simp [hcf, hd, List.count_singleton]

theorem count_logEvents_ne {w : JobWorld} {name : String} {i j : Nat} (d : String)
    (hij : i ≠ j) : (logEvents w name j).count (JobEvent.logJobError i name d) = 0 := by
  refine List.count_eq_zero.mpr (fun h => ?_)
  rcases mem_logEvents_shape h with ⟨d2, hd2⟩
  rw [JobEvent.logJobError.injEq] at hd2
  exact hij hd2.1

theorem invoke_not_mem_logEvents {w : JobWorld} {name : String} {i j : Nat} :
    JobEvent.invoke j ∉ logEvents w name i := by
  intro h
  rcases mem_logEvents_shape h with ⟨d, hd⟩
  exact JobEvent.noConfusion hd

theorem exited_not_mem_logEvents {w : JobWorld} {name : String} {i : Nat} :
    JobEvent.exited ∉ logEvents w name i := by
  intro h
  rcases mem_logEvents_shape h with ⟨d, hd⟩
  exact JobEvent.noConfusion hd

theorem fatalPath_not_mem_logEvents {w : JobWorld} {name : String} {i : Nat} {m : String} :
    JobEvent.fatalPath m ∉ logEvents w name i := by
  intro h
  rcases mem_logEvents_shape h with ⟨d, hd⟩
  exact JobEvent.noConfusion hd

theorem fatalPath_not_mem_runJobAux (w : JobWorld) (name : String) (fuel s : Nat) (m : String) :
    JobEvent.fatalPath m ∉ runJobAux w name fuel s := by
  induction fuel generalizing s with
  | zero => simp [runJobAux]
  | succ fuel ih =>
    rw [runJobAux]
    rcases hp : w.pick s with _ | _ <;> simp only []
    · intro h
      rcases List.mem_cons.mp h with h | h
      · exact JobEvent.noConfusion h
      · rcases List.mem_append.mp h with h | h
        · exact fatalPath_not_mem_logEvents h
        · rw [List.mem_singleton] at h
          exact JobEvent.noConfusion h
    · intro h
      rcases List.mem_cons.mp h with h | h
      · exact JobEvent.noConfusion h
      · rcases List.mem_append.mp h with h | h
        · exact fatalPath_not_mem_logEvents h
        · exact ih (s + 1) h

theorem log_mem_runJobAux_ge {w : JobWorld} {name : String} {fuel s j : Nat} {d : String}
    (h : JobEvent.logJobError j name d ∈ runJobAux w name fuel s) : s ≤ j := by
  induction fuel generalizing s with
  | zero => simp [runJobAux] at h
  | succ fuel ih =>
    rw [runJobAux] at h
    rcases hp : w.pick s with _ | _ <;> rw [hp] at h <;> simp only [] at h
    · rcases List.mem_cons.mp h with h | h
      · exact JobEvent.noConfusion h
      · rcases List.mem_append.mp h with h | h
        · rcases mem_logEvents_shape h with ⟨d2, hd2⟩
          rw [JobEvent.logJobError.injEq] at hd2
          omega
        · rw [List.mem_singleton] at h
          exact JobEvent.noConfusion h
    · rcases List.mem_cons.mp h with h | h
      · exact JobEvent.noConfusion h
      · rcases List.mem_append.mp h with h | h
        · rcases mem_logEvents_shape h with ⟨d2, hd2⟩
          rw [JobEvent.logJobError.injEq] at hd2
          omega
        · have := ih h
          omega

theorem invoke_mem_runJobAux_ge {w : JobWorld} {name : String} {fuel s j : Nat}
    (h : JobEvent.invoke j ∈ runJobAux w name fuel s) : s ≤ j := by
  induction fuel generalizing s with
  | zero => simp [runJobAux] at h
  | succ fuel ih =>
    rw [runJobAux] at h
    rcases hp : w.pick s with _ | _ <;> rw [hp] at h <;> simp only [] at h
    · rcases List.mem_cons.mp h with h | h
      · rw [JobEvent.invoke.injEq] at h
        omega
      · rcases List.mem_append.mp h with h | h
        · exact absurd h invoke_not_mem_logEvents
        · rw [List.mem_singleton] at h
          exact JobEvent.noConfusion h
    · rcases List.mem_cons.mp h with h | h
      · rw [JobEvent.invoke.injEq] at h
        omega
      · rcases List.mem_append.mp h with h | h
        · exact absurd h invoke_not_mem_logEvents
        · have := ih h
          omega

/-- Recognises the invocation events of a job trace. -/
def isInvoke : JobEvent → Bool
  | .invoke _ => true
  | _ => false

theorem beq_invoke_log_false (s i : Nat) (name d : String) :
    (JobEvent.invoke s == JobEvent.logJobError i name d) = false := by
  rw [beq_eq_false_iff_ne]
  exact fun h => JobEvent.noConfusion h

theorem runJobAux_stops (w : JobWorld) (name : String) (i : Nat)
    (hdone : w.pick i = .ctxDone) :
    ∀ fuel s, s ≤ i → (∀ m, s ≤ m → m < i → w.pick m = .tick) →
      (∀ j, i < j → JobEvent.invoke j ∉ runJobAux w name fuel s)
      ∧ (i < s + fuel → JobEvent.exited ∈ runJobAux w name fuel s) := by
  intro fuel
  induction fuel with
  | zero =>
    intro s hs hreach
    exact ⟨fun j hj => by simp [runJobAux], fun hlt => absurd hlt (by omega)⟩
  | succ fuel ih =>
    intro s hs hreach
    rcases Nat.lt_or_ge s i with hlt | hge
    · have htick : w.pick s = .tick := hreach s (Nat.le_refl s) hlt
      have hrec := ih (s + 1) (by omega) (fun m hm1 hm2 => hreach m (by omega) hm2)
      constructor
      · intro j hj hmem
        rw [runJobAux, htick] at hmem
        simp only [] at hmem
        rcases List.mem_cons.mp hmem with h | h
        · rw [JobEvent.invoke.injEq] at h
          omega
        · rcases List.mem_append.mp h with h | h
          · exact absurd h invoke_not_mem_logEvents
          · exact hrec.1 j hj h
      · intro hfuel
        rw [runJobAux, htick]
        simp only []
        exact List.mem_cons_of_mem _ (List.mem_append_right _ (hrec.2 (by omega)))
    · have hsi : s = i := by omega
      subst hsi
      constructor
      · intro j hj hmem
        rw [runJobAux, hdone] at hmem
        simp only [] at hmem
        rcases List.mem_cons.mp hmem with h | h
        · rw [JobEvent.invoke.injEq] at h
          omega
        · rcases List.mem_append.mp h with h | h
          · exact absurd h invoke_not_mem_logEvents
          · rw [List.mem_singleton] at h
            exact JobEvent.noConfusion h
      · intro hfuel
        rw [runJobAux, hdone]
        simp only []
        exact List.mem_cons_of_mem _ (List.mem_append_right _ (List.mem_singleton_self _))

theorem invoke_mem_runJobAux (w : JobWorld) (name : String) :
    ∀ fuel s j, s ≤ j → j < s + fuel → (∀ m, s ≤ m → m < j → w.pick m = .tick) →
      JobEvent.invoke j ∈ runJobAux w name fuel s := by
  intro fuel
  induction fuel with
  | zero => intro s j h1 h2 h3; exact absurd h2 (by omega)
  | succ fuel ih =>
    intro s j h1 h2 h3
    rcases Nat.lt_or_ge s j with hlt | hge
    · have htick : w.pick s = .tick := h3 s (Nat.le_refl s) hlt
      rw [runJobAux, htick]
      simp only []
      exact List.mem_cons_of_mem _
        (List.mem_append_right _ (ih (s + 1) j (by omega) (by omega)
          (fun m hm1 hm2 => h3 m (by omega) hm2)))
    · have hsj : s = j := by omega
      subst hsj
      rw [runJobAux]
      cases hp : w.pick s <;> simp only [] <;> exact List.mem_cons_self _ _

theorem runJobAux_count_log (w : JobWorld) (name : String) (i : Nat) (d : String) :
    ∀ fuel s, s ≤ i → (∀ m, s ≤ m → m < i → w.pick m = .tick) → i < s + fuel →
      (runJobAux w name fuel s).count (JobEvent.logJobError i name d)
        = (logEvents w name i).count (JobEvent.logJobError i name d) := by
  intro fuel
  induction fuel with
  | zero =>
    intro s hs hreach hfuel
    exact absurd hfuel (by omega)
  | succ fuel ih =>
    intro s hs hreach hfuel
    rcases Nat.lt_or_ge s i with hlt | hge
    · have htick : w.pick s = .tick := hreach s (Nat.le_refl s) hlt
      rw [runJobAux, htick]
      simp only []
      rw [List.count_cons, List.count_append]
      rw [count_logEvents_ne d (by omega : i ≠ s)]
      rw [ih (s + 1) (by omega) (fun m hm1 hm2 => hreach m (by omega) hm2) (by omega)]
      rw [beq_invoke_log_false]
      simp
    · have hsi : s = i := by omega
      subst hsi
      cases hp : w.pick s
      · rw [runJobAux, hp]
        simp only []
        rw [List.count_cons, List.count_append]
        have h3 : ([JobEvent.exited].count (JobEvent.logJobError s name d)) = 0 := by
          rw [List.count_singleton]
          rw [show (JobEvent.exited == JobEvent.logJobError s name d) = false by
            rw [beq_eq_false_iff_ne]; exact fun h => JobEvent.noConfusion h]
          rfl
        rw [h3, beq_invoke_log_false]
        simp
      · rw [runJobAux, hp]
        simp only []
        rw [List.count_cons, List.count_append]
        have h3 : (runJobAux w name fuel (s + 1)).count (JobEvent.logJobError s name d) = 0 :=
          List.count_eq_zero.mpr (fun h => by
            have := log_mem_runJobAux_ge h
            omega)
        rw [h3, beq_invoke_log_false]
        simp

theorem logEvents_filter_invoke (w : JobWorld) (name : String) (i : Nat) :
    (logEvents w name i).filter isInvoke = [] := by
  unfold logEvents
  rcases w.errAt i with _ | e
  · rfl
  · simp only []
    by_cases hc : w.cancelAtCheck i = true
    · rw [if_pos hc]
      rfl
    · rw [if_neg hc]
      rfl

theorem runJobAux_filter_invoke (w w2 : JobWorld) (name : String)
    (hp : w2.pick = w.pick) :
    ∀ fuel s, (runJobAux w2 name fuel s).filter isInvoke
      = (runJobAux w name fuel s).filter isInvoke := by
  intro fuel
  induction fuel with
  | zero =>
    intro s
    rfl
  | succ fuel ih =>
    intro s
    rw [runJobAux, runJobAux, hp]
    cases hp2 : w.pick s <;> simp only []
    · simp [List.filter_cons, List.filter_append, logEvents_filter_invoke]
    · simp [List.filter_cons, List.filter_append, logEvents_filter_invoke, ih (s + 1)]

/-- C6: registering a second server with the same port as an
already-registered server, or a second job with the same name as an
already-registered job, is rejected fatally (`slogFatal` + `os.Exit(1)`,
modelled as `Except.error`) at registration time — a registration
sequence that fails this way produces only a `fatalExit` trace, so the
concurrent phase never begins — while a registration with a fresh key
adds exactly one entry and leaves every previously registered entry
unchanged. -/
theorem claim_C6 (b : Bootstrapper) (srv : GoServer) (host port : String) (p : Int)
    (n : String) (iv : Int) (f : Nat)
    (hsp : splitHostPort srv.addr = .ok (host, port)) (hat : atoi port = .ok p) :
    ((b.servers.lookup p).isSome = true → b.AddServer srv = .error "server already added")
    ∧ ((b.jobs.lookup n).isSome = true → b.AddJob n iv f = .error "job already added")
    ∧ (b.servers.lookup p = none →
        b.AddServer srv = .ok { b with servers := b.servers ++ [(p, srv)] }
        ∧ (b.servers ++ [(p, srv)]).length = b.servers.length + 1
        ∧ (b.servers ++ [(p, srv)]).lookup p = some srv
        ∧ (∀ q, q ≠ p → (b.servers ++ [(p, srv)]).lookup q = b.servers.lookup q))
    ∧ (b.jobs.lookup n = none →
        b.AddJob n iv f = .ok { b with jobs := b.jobs ++ [(n, (⟨n, iv, f⟩ : GoJob))] }
        ∧ (b.jobs ++ [(n, (⟨n, iv, f⟩ : GoJob))]).length = b.jobs.length + 1
        ∧ (b.jobs ++ [(n, (⟨n, iv, f⟩ : GoJob))]).lookup n = some ⟨n, iv, f⟩
        ∧ (∀ m, m ≠ n → (b.jobs ++ [(n, (⟨n, iv, f⟩ : GoJob))]).lookup m = b.jobs.lookup m))
    ∧ (∀ env userErr startupResults serverKeysIter jobIter shutdownIter shutdownRes calls m,
        runCalls calls Bootstrapper.empty = .error m →
        runTrace env calls userErr startupResults serverKeysIter jobIter shutdownIter shutdownRes
          = [Event.fatalExit m]) := by
  refine ⟨?_, ?_, ?_, ?_, ?_⟩
  · intro hdup
    unfold Bootstrapper.AddServer
    rw [hsp]
    simp only []
    rw [hat]
    simp only []
    rw [if_pos hdup]
  · intro hdup
    unfold Bootstrapper.AddJob
    rw [if_pos hdup]
  · intro hfresh
    refine ⟨?_, by simp, lookup_append_single_self _ _ _ hfresh,
      fun q hq => lookup_append_single_ne _ _ _ _ hq⟩
    unfold Bootstrapper.AddServer
    rw [hsp]
    simp only []
    rw [hat]
    simp only []
    rw [if_neg (by rw [hfresh]; simp)]
  · intro hfresh
    refine ⟨?_, by simp, lookup_append_single_self _ _ _ hfresh,
      fun m hm => lookup_append_single_ne _ _ _ _ hm⟩
    unfold Bootstrapper.AddJob
    rw [if_neg (by rw [hfresh]; simp)]
  · intro env userErr startupResults serverKeysIter jobIter shutdownIter shutdownRes calls m hc
    exact runTrace_callsError_eq env userErr startupResults serverKeysIter jobIter
      shutdownIter shutdownRes hc

/-- Witness for C6: a fresh registration on the empty bootstrapper adds
exactly the one entry, with the address-parsing hypotheses discharged on
the concrete address `":9090"`. -/
theorem claim_C6_witness :
    Bootstrapper.empty.AddServer ⟨":9090"⟩
      = .ok { Bootstrapper.empty with servers := Bootstrapper.empty.servers ++ [(9090, ⟨":9090"⟩)] } :=
  ((claim_C6 Bootstrapper.empty ⟨":9090"⟩ "" "9090" 9090 "j" 5 0
    (by decide) (by decide)).2.2.1 rfl).1

/-- C8 counterexample: a job declared with interval `0` (violating the
spec's `interval > 0` constraint) is not rejected at registration time —
`AddJob` accepts it — so the constraint is not "detected at registration
time as a fatal configuration error"; the process only dies later, when
the job's execution unit calls `time.NewTicker(0)` (which panics) after
the concurrent phase has begun. -/
theorem claim_C8_counterexample :
    Bootstrapper.empty.AddJob "poller" 0 0
      = .ok { Bootstrapper.empty with jobs := [("poller", ⟨"poller", 0, 0⟩)] }
    ∧ runJob 0
        ⟨fun _ => none, fun _ => false, fun _ => false, fun _ => true, fun _ => SelectPick.tick⟩
        "poller" 3
      = [JobEvent.tickerPanic] := by
  refine ⟨by decide, by decide⟩

/-- C8 (amended): a job's interval must be positive for its scheduler
loop to run, but the code does not validate this at registration:
`AddJob` accepts any interval for a fresh name, and a nonpositive
interval becomes fatal only when the job's execution unit creates its
ticker (`time.NewTicker` panics), after the concurrent phase has begun.
Duplicate job names, and malformed server addresses, are by contrast
rejected fatally at registration time. -/
theorem claim_C8 (b : Bootstrapper) (n : String) (iv : Int) (f : Nat) (srv : GoServer)
    (e : String) (hsp : splitHostPort srv.addr = .error e) :
    (b.jobs.lookup n = none →
      b.AddJob n iv f = .ok { b with jobs := b.jobs ++ [(n, ⟨n, iv, f⟩)] })
    ∧ (iv ≤ 0 → ∀ w : JobWorld, ∀ name fuel, runJob iv w name fuel = [JobEvent.tickerPanic])
    ∧ (0 < iv → ∀ w : JobWorld, ∀ name fuel, runJob iv w name fuel = runJobAux w name fuel 0)
    ∧ ((b.jobs.lookup n).isSome = true → b.AddJob n iv f = .error "job already added")
    ∧ b.AddServer srv = .error "Failed to split host and port" := by
  refine ⟨?_, ?_, ?_, ?_, ?_⟩
  · intro hfresh
    unfold Bootstrapper.AddJob
    rw [if_neg (by rw [hfresh]; simp)]
  · intro hle w name fuel
    unfold runJob
    rw [if_pos hle]
  · intro hpos w name fuel
    unfold runJob
    rw [if_neg (by omega)]
  · intro hdup
    unfold Bootstrapper.AddJob
    rw [if_pos hdup]
  · unfold Bootstrapper.AddServer
    rw [hsp]

/-- Witness for C8 at a concrete malformed address and a concrete
negative interval. -/
theorem claim_C8_witness :
    Bootstrapper.empty.AddJob "poller" (-5) 0
      = .ok { Bootstrapper.empty with jobs := Bootstrapper.empty.jobs ++ [("poller", ⟨"poller", -5, 0⟩)] }
    ∧ Bootstrapper.empty.AddServer ⟨"nocolon"⟩ = .error "Failed to split host and port" := by
  have h := claim_C8 Bootstrapper.empty "poller" (-5) 0 ⟨"nocolon"⟩ "address error" (by decide)
  exact ⟨h.1 rfl, h.2.2.2.2⟩

/-- A schedule in which the shared token is cancelled from the start, a
tick is pending at every `select`, and every `select` resolves to the
ticker case. Realisable in Go: when both `<-ctx.Done()` and `<-ticker.C`
can proceed, `select` chooses among them uniformly at random. -/
def tieWorld : JobWorld :=
  ⟨fun _ => none, fun _ => true, fun _ => true, fun _ => true, fun _ => SelectPick.tick⟩

theorem tieWorld_admissible : tieWorld.Admissible := by
  refine ⟨fun i h => ?_, fun i h1 h2 => rfl, fun i h => rfl, fun i h => rfl⟩
  simp [tieWorld] at h

/-- C3 counterexample: cancellation does not win ties. In `tieWorld` the
token is cancelled and a tick is pending at `select` 0, so both
`<-ctx.Done()` and `<-ticker.C` can proceed; per the Go specification,
`select` then chooses among the ready cases via uniform pseudo-random
selection, so the run in which it takes the ticker case is realisable
(the tick was buffered while invocation 0 ran, e.g. with a 1ns interval
and a slow invocation; the ticker is only stopped after `runJob`
returns, so ticks keep arriving). In that run the job function is
invoked again and the unit does not exit — the whole two-iteration trace
is `[invoke 0, invoke 1]` with no `exited` — refuting the claim that a
simultaneous tie is won by cancellation, with the unit exiting cleanly
and no further invocation. -/
theorem claim_C3_counterexample :
    tieWorld.Admissible
    ∧ tieWorld.cancelAtSelect 0 = true
    ∧ tieWorld.tickPending 0 = true
    ∧ runJob 1 tieWorld "heartbeat" 2 = [JobEvent.invoke 0, JobEvent.invoke 1]
    ∧ JobEvent.invoke 1 ∈ runJob 1 tieWorld "heartbeat" 2
    ∧ JobEvent.exited ∉ runJob 1 tieWorld "heartbeat" 2 :=
  ⟨tieWorld_admissible, rfl, rfl, by decide, by decide, by decide⟩

/-- C3 (amended): after each invocation the unit races the shared token
against the interval ticker; when both are ready the `select` picks one
of the ready cases nondeterministically (uniformly at random), so
cancellation does not deterministically win a tie. The cancellation case
can be picked only when the token is cancelled, and the first `select`
that picks it ends the unit cleanly: every invocation up to that point
occurs, `exited` is emitted, and no later invocation ever occurs. -/
theorem claim_C3 (w : JobWorld) (hw : w.Admissible) (name : String) (i fuel : Nat)
    (hdone : w.pick i = SelectPick.ctxDone)
    (hreach : ∀ m, m < i → w.pick m = SelectPick.tick) :
    w.cancelAtSelect i = true
    ∧ (∀ j, j ≤ i → i < fuel → JobEvent.invoke j ∈ runJobAux w name fuel 0)
    ∧ (i < fuel → JobEvent.exited ∈ runJobAux w name fuel 0)
    ∧ (∀ j, i < j → JobEvent.invoke j ∉ runJobAux w name fuel 0) := by
  have hstops := runJobAux_stops w name i hdone fuel 0 (Nat.zero_le i)
    (fun m hm1 hm2 => hreach m hm2)
  refine ⟨hw.1 i hdone, ?_, fun hf => hstops.2 (by omega), hstops.1⟩
  intro j hj hf
  exact invoke_mem_runJobAux w name fuel 0 j (Nat.zero_le j) (by omega)
    (fun m hm1 hm2 => hreach m (by omega))

/-- Witness for C3 (amended) at a concrete schedule whose first `select`
already picks the cancellation case. -/
theorem claim_C3_witness :
    JobEvent.invoke 0 ∈ runJobAux
      ⟨fun _ => none, fun _ => true, fun _ => true, fun _ => false, fun _ => SelectPick.ctxDone⟩
      "heartbeat" 1 0
    ∧ JobEvent.exited ∈ runJobAux
      ⟨fun _ => none, fun _ => true, fun _ => true, fun _ => false, fun _ => SelectPick.ctxDone⟩
      "heartbeat" 1 0 := by
  have h := claim_C3
    ⟨fun _ => none, fun _ => true, fun _ => true, fun _ => false, fun _ => SelectPick.ctxDone⟩
    (by refine ⟨fun i h2 => rfl, fun i h2 h3 => ?_, fun i h2 => rfl, fun i h2 => rfl⟩
        simp at h2)
    "heartbeat" 0 1 rfl (fun m hm => absurd hm (by omega))
  exact ⟨h.2.1 0 (Nat.le_refl 0) (by omega), h.2.2.1 (by omega)⟩

/-- A schedule in which invocation 0 returns a genuine error (detail
`"disk failure"`, not caused by the token) while the shared token was
cancelled during that invocation, and the following `select` picks the
cancellation case. -/
def cancelledErrWorld : JobWorld :=
  ⟨fun i => if i = 0 then some ⟨"disk failure", false⟩ else none,
   fun _ => true, fun _ => true, fun _ => false, fun _ => SelectPick.ctxDone⟩

theorem cancelledErrWorld_admissible : cancelledErrWorld.Admissible := by
  refine ⟨fun i h => rfl, fun i h2 h3 => ?_, fun i h => rfl, fun i h => rfl⟩
  simp [cancelledErrWorld] at h2

/-- C5 counterexample: the code's guard is `err != nil && ctx.Err() == nil`,
not a check of the error's cause. In `cancelledErrWorld` invocation 0
returns the error `"disk failure"` whose cause is not the shared
cancellation token, yet because the token is already cancelled at the
check, the error is never logged — refuting the claim that every error is
logged exactly once unless the token was its cause. -/
theorem claim_C5_counterexample :
    cancelledErrWorld.Admissible
    ∧ cancelledErrWorld.errAt 0 = some ⟨"disk failure", false⟩
    ∧ (⟨"disk failure", false⟩ : JobErr).causedByToken = false
    ∧ runJob 1 cancelledErrWorld "backup" 1 = [JobEvent.invoke 0, JobEvent.exited]
    ∧ (runJob 1 cancelledErrWorld "backup" 1).count
        (JobEvent.logJobError 0 "backup" "disk failure") = 0 :=
  ⟨cancelledErrWorld_admissible, rfl, rfl, by decide, by decide⟩

/-- C5 (amended): an error returned by a job invocation is logged exactly
once, with the job's name and the error detail, unless the shared
cancellation token is already cancelled when the invocation returns
(`ctx.Err() != nil`), in which case nothing is logged regardless of the
error's cause; a job-body error never changes which invocations are
scheduled (the invocation events of the trace depend only on the select
schedule); and the scheduler loop has no fatal path. -/
theorem claim_C5 (w : JobWorld) (name : String) (i fuel : Nat) (e : JobErr)
    (hreach : ∀ m, m < i → w.pick m = SelectPick.tick) (hfuel : i < fuel) :
    (w.errAt i = some e → w.cancelAtCheck i = false →
      (runJobAux w name fuel 0).count (JobEvent.logJobError i name e.detail) = 1)
    ∧ (w.cancelAtCheck i = true →
        ∀ d, JobEvent.logJobError i name d ∉ runJobAux w name fuel 0)
    ∧ (w.errAt i = none →
        ∀ d, JobEvent.logJobError i name d ∉ runJobAux w name fuel 0)
    ∧ (∀ w2 : JobWorld, w2.pick = w.pick →
        (runJobAux w2 name fuel 0).filter isInvoke
          = (runJobAux w name fuel 0).filter isInvoke)
    ∧ (∀ m, JobEvent.fatalPath m ∉ runJobAux w name fuel 0) := by
  have hcnt : ∀ d, (runJobAux w name fuel 0).count (JobEvent.logJobError i name d)
      = (logEvents w name i).count (JobEvent.logJobError i name d) :=
    fun d => runJobAux_count_log w name i d fuel 0 (Nat.zero_le i)
      (fun m hm1 hm2 => hreach m hm2) (by omega)
  refine ⟨?_, ?_, ?_, fun w2 hp => runJobAux_filter_invoke w w2 name hp fuel 0,
    fun m => fatalPath_not_mem_runJobAux w name fuel 0 m⟩
  · intro herr hcancel
    rw [hcnt e.detail, count_logEvents, herr]
    simp [hcancel]
  · intro hcancel d
    refine List.count_eq_zero.mp ?_
    rw [hcnt d, count_logEvents]
    rcases herr : w.errAt i with _ | e2
    · simp
    · simp [hcancel]
  · intro herr d
    refine List.count_eq_zero.mp ?_
    rw [hcnt d, count_logEvents, herr]

/-- Witness for C5 (amended): a concrete failing invocation with the
token still active is logged exactly once. -/
theorem claim_C5_witness :
    (runJobAux
      ⟨fun j => if j = 0 then some ⟨"oops", false⟩ else none,
       fun _ => false, fun _ => false, fun _ => true, fun _ => SelectPick.tick⟩
      "backup" 1 0).count (JobEvent.logJobError 0 "backup" "oops") = 1 :=
  (claim_C5
    ⟨fun j => if j = 0 then some ⟨"oops", false⟩ else none,
     fun _ => false, fun _ => false, fun _ => true, fun _ => SelectPick.tick⟩
    "backup" 0 1 ⟨"oops", false⟩ (fun m hm => absurd hm (by omega)) (by omega)).1 rfl rfl

/-- C4 counterexample: the scheduler's ticker is fixed-rate from launch
(`time.NewTicker`), not fixed-delay from completion. With interval `T = 2`
and a first invocation that takes `1` unit of time, the second invocation
starts at time `2` — only `1` unit after the first completes — refuting
the claim that each subsequent invocation begins no earlier than `T`
after the prior invocation completes. -/
theorem claim_C4_counterexample :
    startTime 2 (fun _ => 1) 0 = 0
    ∧ completionTime 2 (fun _ => 1) 0 = 1
    ∧ startTime 2 (fun _ => 1) 1 = 2
    ∧ ¬ (completionTime 2 (fun _ => 1) 0 + 2 ≤ startTime 2 (fun _ => 1) 1) := by
  decide

theorem jobTimes_fill_ge (T : Nat) (d : Nat → Nat) :
    ∀ i, T ≤ (jobTimes T d i).2 := by
  intro i
  induction i with
  | zero => exact Nat.le_refl T
  | succ i ih =>
    rw [jobTimes]
    simp only []
    unfold nextFill
    calc T = T * 1 := (Nat.mul_one T).symm
    _ ≤ T * (max ((jobTimes T d i).1 + d i) (jobTimes T d i).2 / T + 1) :=
      Nat.mul_le_mul (Nat.le_refl T) (Nat.succ_le_succ (Nat.zero_le _))

/-- C4 (amended): the job function is invoked once immediately on launch
(start time `0`); each subsequent invocation begins no earlier than the
prior invocation's completion and no earlier than `T` after launch; and
the ticker is fixed-rate from launch, so with instantaneous invocations
the cadence is exactly `T` — but the delay measured from a nonzero-length
invocation's completion can be shorter than `T`. -/
theorem claim_C4 (T : Nat) (hT : 0 < T) (d : Nat → Nat) (i : Nat) :
    startTime T d 0 = 0
    ∧ completionTime T d i ≤ startTime T d (i + 1)
    ∧ T ≤ startTime T d (i + 1)
    ∧ (∀ j, startTime T (fun _ => 0) j = j * T) := by
  refine ⟨rfl, ?_, ?_, ?_⟩
  · rw [startTime, jobTimes]
    simp only []
    exact Nat.le_max_left _ _
  · rw [startTime, jobTimes]
    simp only []
    exact Nat.le_trans (jobTimes_fill_ge T d i) (Nat.le_max_right _ _)
  · have key : ∀ j, jobTimes T (fun _ => 0) j = (j * T, (j + 1) * T) := by
      intro j
      induction j with
      | zero => simp [jobTimes]
      | succ j ih =>
        rw [jobTimes, ih]
        simp only [Nat.add_zero]
        have hmax : max (j * T) ((j + 1) * T) = (j + 1) * T :=
          Nat.max_eq_right (Nat.mul_le_mul_right T (by omega))
        rw [hmax]
        unfold nextFill
        have hdiv : (j + 1) * T / T = j + 1 := Nat.mul_div_cancel (j + 1) hT
        rw [hdiv, Nat.mul_comm T (j + 1 + 1)]
    exact fun j => by rw [startTime, key j]

/-- Witness for C4 (amended) at the concrete interval 3 with constant
invocation duration 2. -/
theorem claim_C4_witness :
    startTime 3 (fun _ => 2) 0 = 0
    ∧ completionTime 3 (fun _ => 2) 0 ≤ startTime 3 (fun _ => 2) 1
    ∧ 3 ≤ startTime 3 (fun _ => 2) 1
    ∧ (∀ j, startTime 3 (fun _ => 0) j = j * 3) :=
  claim_C4 3 (by decide) (fun _ => 2) 0

theorem addDebugServer_ok_shape {b b2 : Bootstrapper} {env : String}
    (hd : b.addDebugServer env = .ok b2) :
    ∃ host port p,
      splitHostPort (":" ++ (if env = "" then "6060" else env)) = .ok (host, port)
      ∧ atoi port = .ok p ∧ b.servers.lookup p = none
      ∧ b2 = { b with
          servers := b.servers ++ [(p, ⟨":" ++ (if env = "" then "6060" else env)⟩)] } := by
  unfold Bootstrapper.addDebugServer at hd
  exact AddServer_ok_shape hd

/-- C2: the startup list is exactly the `AddJobAndOnStartup` calls in
registration order; when every startup job succeeds, `Run` invokes them
synchronously in that order, strictly before any server or job execution
unit is launched; and when startup job `k` is the first to fail, the
trace consists of exactly the invocations of jobs `0..k` in order
followed by the fatal exit — so jobs `k+1..N`, all servers and all
background jobs never run. -/
theorem claim_C2 (env : String) (calls : List RegCall) (startupResults : Nat → Option String)
    (serverKeysIter : List Int) (jobIter : List String) (shutdownIter : List Int)
    (shutdownRes : Int → Option String) (b b2 : Bootstrapper)
    (hc : runCalls calls Bootstrapper.empty = .ok b)
    (hd : b.addDebugServer env = .ok b2) :
    b2.startupJobs = calls.filterMap startupOf
    ∧ ((∀ k, k < b2.startupJobs.length → startupResults k = none) →
        runTrace env calls none startupResults serverKeysIter jobIter shutdownIter shutdownRes
          = b2.startupJobs.map (fun j => Event.startupJobRun j.name)
            ++ ((sortInts serverKeysIter).map Event.launchServer
              ++ (jobIter.map Event.launchJob
                ++ (Event.cancelToken :: (shutdownEvents shutdownRes shutdownIter
                  ++ (Event.waitAll :: (deferEvents b2.deferFns 0
                    ++ [Event.exitOk])))))))
    ∧ (∀ k e, k < b2.startupJobs.length → startupResults k = some e →
        (∀ m, m < k → startupResults m = none) →
        runTrace env calls none startupResults serverKeysIter jobIter shutdownIter shutdownRes
          = (b2.startupJobs.take (k + 1)).map (fun j => Event.startupJobRun j.name)
            ++ [Event.fatalExit "failed to run startup job"]) := by
  refine ⟨?_, ?_, ?_⟩
  · have h1 := runCalls_ok_startupJobs calls Bootstrapper.empty b hc
    have h2 : b2.startupJobs = b.startupJobs := by
      rcases addDebugServer_ok_shape hd with ⟨host, port, p, hsp, hat, hlk, hb2⟩
      rw [hb2]
    rw [h2, h1]
    rfl
  · intro hok
    exact runTrace_success_eq env startupResults serverKeysIter jobIter shutdownIter
      shutdownRes hc hd hok
  · intro k e hk hfail hok
    exact runTrace_startupFail_eq env startupResults serverKeysIter jobIter shutdownIter
      shutdownRes hc hd hk hfail hok

/-- Witness for C2: a run with one startup job and no failures produces
exactly the expected ordered trace on concrete inputs. -/
theorem claim_C2_witness :
    runTrace "" [RegCall.addJobAndOnStartup "a" 5 0] none (fun _ => none)
      [6060] ["a"] [6060] (fun _ => none)
      = [Event.startupJobRun "a", Event.launchServer 6060, Event.launchJob "a",
         Event.cancelToken, Event.shutdownAttempt 6060, Event.waitAll, Event.exitOk] := by
  have h := (claim_C2 "" [RegCall.addJobAndOnStartup "a" 5 0] (fun _ => none)
      [6060] ["a"] [6060] (fun _ => none)
      ⟨[], [("a", ⟨"a", 5, 0⟩)], [⟨"a", 5, 0⟩], []⟩
      ⟨[(6060, ⟨":6060"⟩)], [("a", ⟨"a", 5, 0⟩)], [⟨"a", 5, 0⟩], []⟩
      (by decide) (by decide)).2.1 (fun k hk => rfl)
  rw [h]
  decide

/-- Recognises deferred-cleanup events. -/
def isRunDeferredEv : Event → Bool
  | .runDeferred _ _ => true
  | _ => false

/-- C7: the deferred-cleanup list is exactly the `Defer` calls in FIFO
registration order; on the successful shutdown path the trace ends with
`wg.Wait()` followed by the deferred cleanups in that order and the final
exit, with no cleanup event anywhere earlier; each registered cleanup
runs exactly once, and only after the wait on every tracked execution
unit. -/
theorem claim_C7 (env : String) (calls : List RegCall) (startupResults : Nat → Option String)
    (serverKeysIter : List Int) (jobIter : List String) (shutdownIter : List Int)
    (shutdownRes : Int → Option String) (b b2 : Bootstrapper)
    (hc : runCalls calls Bootstrapper.empty = .ok b)
    (hd : b.addDebugServer env = .ok b2)
    (hok : ∀ k, k < b2.startupJobs.length → startupResults k = none) :
    b2.deferFns = calls.filterMap deferOf
    ∧ ∃ pre,
        runTrace env calls none startupResults serverKeysIter jobIter shutdownIter shutdownRes
          = pre ++ Event.waitAll :: (deferEvents b2.deferFns 0 ++ [Event.exitOk])
        ∧ (∀ ev ∈ pre, isRunDeferredEv ev = false)
        ∧ (∀ i, ∀ hi : i < b2.deferFns.length,
            (runTrace env calls none startupResults serverKeysIter jobIter shutdownIter
                shutdownRes).count (Event.runDeferred i b2.deferFns[i]) = 1
            ∧ precedesIn Event.waitAll (Event.runDeferred i b2.deferFns[i])
                (runTrace env calls none startupResults serverKeysIter jobIter shutdownIter
                  shutdownRes)) := by
  have htr := runTrace_success_eq env startupResults serverKeysIter jobIter shutdownIter
    shutdownRes hc hd hok
  constructor
  · have h1 := runCalls_ok_deferFns calls Bootstrapper.empty b hc
    have h2 : b2.deferFns = b.deferFns := by
      rcases addDebugServer_ok_shape hd with ⟨host, port, p, hsp, hat, hlk, hb2⟩
      rw [hb2]
    rw [h2, h1]
    rfl
  · refine ⟨b2.startupJobs.map (fun j => Event.startupJobRun j.name)
      ++ ((sortInts serverKeysIter).map Event.launchServer
        ++ (jobIter.map Event.launchJob
          ++ (Event.cancelToken :: shutdownEvents shutdownRes shutdownIter))), ?_, ?_, ?_⟩
    · rw [htr]
      simp [List.append_assoc, List.cons_append]
    · intro ev hev
      rcases List.mem_append.mp hev with h | h
      · rcases List.mem_map.mp h with ⟨j, hj, hevj⟩
        rw [← hevj]
        rfl
      · rcases List.mem_append.mp h with h | h
        · rcases List.mem_map.mp h with ⟨p2, hp2, hevp⟩
          rw [← hevp]
          rfl
        · rcases List.mem_append.mp h with h | h
          · rcases List.mem_map.mp h with ⟨nm, hnm, hevn⟩
            rw [← hevn]
            rfl
          · rcases List.mem_cons.mp h with h | h
            · rw [h]
              rfl
            · rcases mem_shutdownEvents_shape h with ⟨p2, hp2, hsh | hsh⟩ <;> rw [hsh] <;> rfl
    · intro i hi
      have hpre : ∀ f2 : Nat, Event.runDeferred i f2 ∉
          b2.startupJobs.map (fun j => Event.startupJobRun j.name)
          ++ ((sortInts serverKeysIter).map Event.launchServer
            ++ (jobIter.map Event.launchJob
              ++ (Event.cancelToken :: shutdownEvents shutdownRes shutdownIter))) := by
        intro f2 hmem
        rcases List.mem_append.mp hmem with h | h
        · rcases List.mem_map.mp h with ⟨j, hj, hevj⟩
          exact Event.noConfusion hevj
        · rcases List.mem_append.mp h with h | h
          · rcases List.mem_map.mp h with ⟨p2, hp2, hevp⟩
            exact Event.noConfusion hevp
          · rcases List.mem_append.mp h with h | h
            · rcases List.mem_map.mp h with ⟨nm, hnm, hevn⟩
              exact Event.noConfusion hevn
            · rcases List.mem_cons.mp h with h | h
              · exact Event.noConfusion h
              · rcases mem_shutdownEvents_shape h with ⟨p2, hp2, hsh | hsh⟩ <;>
                  exact Event.noConfusion hsh
      have hassoc : runTrace env calls none startupResults serverKeysIter jobIter shutdownIter
          shutdownRes
          = (b2.startupJobs.map (fun j => Event.startupJobRun j.name)
            ++ ((sortInts serverKeysIter).map Event.launchServer
              ++ (jobIter.map Event.launchJob
                ++ (Event.cancelToken :: shutdownEvents shutdownRes shutdownIter))))
            ++ Event.waitAll :: (deferEvents b2.deferFns 0 ++ [Event.exitOk]) := by
        rw [htr]
        simp [List.append_assoc, List.cons_append]
      constructor
      · have hde : (deferEvents b2.deferFns 0).count (Event.runDeferred i b2.deferFns[i]) = 1 := by
          have h5 := count_deferEvents_get b2.deferFns 0 i hi
          rw [Nat.zero_add] at h5
          exact h5
        have hexit : ([Event.exitOk].count (Event.runDeferred i b2.deferFns[i])) = 0 := by
          rw [List.count_eq_zero]
          intro hmem
          rw [List.mem_singleton] at hmem
          exact Event.noConfusion hmem
        have hwait : (Event.waitAll == Event.runDeferred i b2.deferFns[i]) = false := by
          rw [beq_eq_false_iff_ne]
          exact fun h => Event.noConfusion h
        rw [hassoc, List.count_append, List.count_eq_zero.mpr (hpre b2.deferFns[i]),
          List.count_cons, List.count_append, hde, hexit, hwait]
        rfl
      · rw [hassoc]
        exact precedesIn_of_split _ _ (hpre b2.deferFns[i]) (fun h => Event.noConfusion h)

/-- Witness for C7: with cleanups registered in order [7, 8], the trace
runs them in exactly that order after the wait, and each cleanup event
occurs exactly once. -/
theorem claim_C7_witness :
    ([7, 8] : List Nat) = [RegCall.deferCall 7, RegCall.deferCall 8].filterMap deferOf
    ∧ ∃ pre,
        runTrace "" [RegCall.deferCall 7, RegCall.deferCall 8] none (fun _ => none)
          [6060] [] [6060] (fun _ => none)
          = pre ++ Event.waitAll :: (deferEvents [7, 8] 0 ++ [Event.exitOk])
        ∧ (∀ ev ∈ pre, isRunDeferredEv ev = false)
        ∧ (∀ i, ∀ hi : i < ([7, 8] : List Nat).length,
            (runTrace "" [RegCall.deferCall 7, RegCall.deferCall 8] none (fun _ => none)
                [6060] [] [6060] (fun _ => none)).count
              (Event.runDeferred i (([7, 8] : List Nat)[i])) = 1
            ∧ precedesIn Event.waitAll (Event.runDeferred i (([7, 8] : List Nat)[i]))
                (runTrace "" [RegCall.deferCall 7, RegCall.deferCall 8] none (fun _ => none)
                  [6060] [] [6060] (fun _ => none))) :=
  claim_C7 "" [RegCall.deferCall 7, RegCall.deferCall 8] (fun _ => none)
    [6060] [] [6060] (fun _ => none)
    ⟨[], [], [], [7, 8]⟩ ⟨[(6060, ⟨":6060"⟩)], [], [], [7, 8]⟩
    (by decide) (by decide) (fun k hk => rfl)

theorem mem_deferEvents_shape {fns : List Nat} {c : Nat} {ev : Event}
    (h : ev ∈ deferEvents fns c) : ∃ j g, ev = Event.runDeferred j g := by
  induction fns generalizing c with
  | nil => simp [deferEvents] at h
  | cons f t ih =>
    rw [deferEvents] at h
    rcases List.mem_cons.mp h with h | h
    · exact ⟨c, f, h⟩
    · exact ih h

/-- Recognises the launch of an execution unit (the `wg.Add(1)` + `go`
statement for a server or a job). -/
def isLaunchEv : Event → Bool
  | .launchServer _ => true
  | .launchJob _ => true
  | _ => false

/-- C1: on the termination trigger, the shutdown sequence of `Run` is
strictly ordered: the shared cancellation token is cancelled exactly once
and strictly before any server's graceful shutdown attempt; every
registered server receives a graceful shutdown attempt; a server whose
graceful shutdown returns an error (including the deadline error after
the 5-second timeout) receives a forceful close; the wait on the shared
wait-group — which tracks exactly one execution unit per server and per
job — strictly precedes every deferred cleanup. -/
theorem claim_C1 (env : String) (calls : List RegCall) (startupResults : Nat → Option String)
    (serverKeysIter : List Int) (jobIter : List String) (shutdownIter : List Int)
    (shutdownRes : Int → Option String) (b b2 : Bootstrapper) (tr : List Event)
    (hc : runCalls calls Bootstrapper.empty = .ok b)
    (hd : b.addDebugServer env = .ok b2)
    (hok : ∀ k, k < b2.startupJobs.length → startupResults k = none)
    (htr : tr = runTrace env calls none startupResults serverKeysIter jobIter
      shutdownIter shutdownRes)
    (hperm : shutdownIter.Perm (portsOf b2))
    (hpermS : serverKeysIter.Perm (portsOf b2))
    (hpermJ : jobIter.Perm (b2.jobs.map Prod.fst)) :
    tr.count Event.cancelToken = 1
    ∧ (∀ p, precedesIn Event.cancelToken (Event.shutdownAttempt p) tr)
    ∧ (∀ p, p ∈ portsOf b2 → Event.shutdownAttempt p ∈ tr)
    ∧ (∀ p e, shutdownRes p = some e → p ∈ portsOf b2 → Event.forceClose p ∈ tr)
    ∧ (∀ i f, precedesIn Event.waitAll (Event.runDeferred i f) tr)
    ∧ (tr.filter isLaunchEv).length = b2.servers.length + b2.jobs.length := by
  have htr2 : tr
      = b2.startupJobs.map (fun j => Event.startupJobRun j.name)
        ++ ((sortInts serverKeysIter).map Event.launchServer
          ++ (jobIter.map Event.launchJob
            ++ (Event.cancelToken :: (shutdownEvents shutdownRes shutdownIter
              ++ (Event.waitAll :: (deferEvents b2.deferFns 0
                ++ [Event.exitOk])))))) := by
    rw [htr]
    exact runTrace_success_eq env startupResults serverKeysIter jobIter shutdownIter
      shutdownRes hc hd hok
  have hassoc1 : tr
      = (b2.startupJobs.map (fun j => Event.startupJobRun j.name)
        ++ ((sortInts serverKeysIter).map Event.launchServer ++ jobIter.map Event.launchJob))
        ++ Event.cancelToken :: (shutdownEvents shutdownRes shutdownIter
          ++ (Event.waitAll :: (deferEvents b2.deferFns 0 ++ [Event.exitOk]))) := by
    rw [htr2]
    simp [List.append_assoc]
  have hassoc2 : tr
      = (b2.startupJobs.map (fun j => Event.startupJobRun j.name)
        ++ ((sortInts serverKeysIter).map Event.launchServer
          ++ (jobIter.map Event.launchJob
            ++ (Event.cancelToken :: shutdownEvents shutdownRes shutdownIter))))
        ++ Event.waitAll :: (deferEvents b2.deferFns 0 ++ [Event.exitOk]) := by
    rw [htr2]
    simp [List.append_assoc, List.cons_append]
  have hlaunch_shape : ∀ ev ∈ b2.startupJobs.map (fun j => Event.startupJobRun j.name)
      ++ ((sortInts serverKeysIter).map Event.launchServer ++ jobIter.map Event.launchJob),
      (∃ nm, ev = Event.startupJobRun nm) ∨ (∃ p2, ev = Event.launchServer p2)
      ∨ (∃ nm, ev = Event.launchJob nm) := by
    intro ev hev
    rcases List.mem_append.mp hev with h | h
    · rcases List.mem_map.mp h with ⟨j, hj, hevj⟩
      exact Or.inl ⟨j.name, hevj.symm⟩
    · rcases List.mem_append.mp h with h | h
      · rcases List.mem_map.mp h with ⟨p2, hp2, hevp⟩
        exact Or.inr (Or.inl ⟨p2, hevp.symm⟩)
      · rcases List.mem_map.mp h with ⟨nm, hnm, hevn⟩
        exact Or.inr (Or.inr ⟨nm, hevn.symm⟩)
  have hrest_shape : ∀ ev ∈ shutdownEvents shutdownRes shutdownIter
      ++ (Event.waitAll :: (deferEvents b2.deferFns 0 ++ [Event.exitOk])),
      (∃ p2, ev = Event.shutdownAttempt p2) ∨ (∃ p2, ev = Event.forceClose p2)
      ∨ ev = Event.waitAll ∨ (∃ j g, ev = Event.runDeferred j g) ∨ ev = Event.exitOk := by
    intro ev hev
    rcases List.mem_append.mp hev with h | h
    · rcases mem_shutdownEvents_shape h with ⟨p2, hp2, hs | hs⟩
      · exact Or.inl ⟨p2, hs⟩
      · exact Or.inr (Or.inl ⟨p2, hs⟩)
    · rcases List.mem_cons.mp h with h | h
      · exact Or.inr (Or.inr (Or.inl h))
      · rcases List.mem_append.mp h with h | h
        · rcases mem_deferEvents_shape h with ⟨j, g, hj⟩
          exact Or.inr (Or.inr (Or.inr (Or.inl ⟨j, g, hj⟩)))
        · rw [List.mem_singleton] at h
          exact Or.inr (Or.inr (Or.inr (Or.inr h)))
  refine ⟨?_, ?_, ?_, ?_, ?_, ?_⟩
  · have hpre0 : Event.cancelToken ∉ b2.startupJobs.map (fun j => Event.startupJobRun j.name)
        ++ ((sortInts serverKeysIter).map Event.launchServer ++ jobIter.map Event.launchJob) := by
      intro hmem
      rcases hlaunch_shape _ hmem with ⟨nm, h⟩ | ⟨p2, h⟩ | ⟨nm, h⟩ <;> exact Event.noConfusion h
    have hrest0 : Event.cancelToken ∉ shutdownEvents shutdownRes shutdownIter
        ++ (Event.waitAll :: (deferEvents b2.deferFns 0 ++ [Event.exitOk])) := by
      intro hmem
      rcases hrest_shape _ hmem with ⟨p2, h⟩ | ⟨p2, h⟩ | h | ⟨j, g, h⟩ | h <;>
        exact Event.noConfusion h
    rw [hassoc1, List.count_append, List.count_cons,
      List.count_eq_zero.mpr hpre0, List.count_eq_zero.mpr hrest0]
    rfl
  · intro p
    rw [hassoc1]
    refine precedesIn_of_split _ _ ?_ (fun h => Event.noConfusion h)
    intro hmem
    rcases hlaunch_shape _ hmem with ⟨nm, h⟩ | ⟨p2, h⟩ | ⟨nm, h⟩ <;> exact Event.noConfusion h
  · intro p hp
    have hmem : Event.shutdownAttempt p ∈ shutdownEvents shutdownRes shutdownIter :=
      shutdownAttempt_mem_shutdownEvents (hperm.symm.mem_iff.mp hp)
    rw [htr2]
    exact List.mem_append_right _ (List.mem_append_right _ (List.mem_append_right _
      (List.mem_cons_of_mem _ (List.mem_append_left _ hmem))))
  · intro p e he hp
    have hmem : Event.forceClose p ∈ shutdownEvents shutdownRes shutdownIter :=
      forceClose_mem_shutdownEvents (hperm.symm.mem_iff.mp hp) he
    rw [htr2]
    exact List.mem_append_right _ (List.mem_append_right _ (List.mem_append_right _
      (List.mem_cons_of_mem _ (List.mem_append_left _ hmem))))
  · intro i f
    rw [hassoc2]
    refine precedesIn_of_split _ _ ?_ (fun h => Event.noConfusion h)
    intro hmem
    rcases List.mem_append.mp hmem with h | h
    · rcases List.mem_map.mp h with ⟨j, hj, hevj⟩
      exact Event.noConfusion hevj
    · rcases List.mem_append.mp h with h | h
      · rcases List.mem_map.mp h with ⟨p2, hp2, hevp⟩
        exact Event.noConfusion hevp
      · rcases List.mem_append.mp h with h | h
        · rcases List.mem_map.mp h with ⟨nm, hnm, hevn⟩
          exact Event.noConfusion hevn
        · rcases List.mem_cons.mp h with h | h
          · exact Event.noConfusion h
          · rcases mem_shutdownEvents_shape h with ⟨p2, hp2, hs | hs⟩ <;>
              exact Event.noConfusion hs
  · have hfA : (b2.startupJobs.map (fun j => Event.startupJobRun j.name)).filter isLaunchEv
        = [] := by
      rw [List.filter_eq_nil_iff]
      intro a ha hla
      rcases List.mem_map.mp ha with ⟨j, hj, hevj⟩
      rw [← hevj] at hla
      exact Bool.noConfusion hla
    have hfB : ((sortInts serverKeysIter).map Event.launchServer).filter isLaunchEv
        = (sortInts serverKeysIter).map Event.launchServer := by
      rw [List.filter_eq_self]
      intro a ha
      rcases List.mem_map.mp ha with ⟨p2, hp2, hevp⟩
      rw [← hevp]
      rfl
    have hfC : (jobIter.map Event.launchJob).filter isLaunchEv = jobIter.map Event.launchJob := by
      rw [List.filter_eq_self]
      intro a ha
      rcases List.mem_map.mp ha with ⟨nm, hnm, hevn⟩
      rw [← hevn]
      rfl
    have hfrest : (shutdownEvents shutdownRes shutdownIter
        ++ (Event.waitAll :: (deferEvents b2.deferFns 0 ++ [Event.exitOk]))).filter isLaunchEv
        = [] := by
      rw [List.filter_eq_nil_iff]
      intro a ha hla
      rcases hrest_shape _ ha with ⟨p2, h⟩ | ⟨p2, h⟩ | h | ⟨j, g, h⟩ | h <;>
        rw [h] at hla <;> exact Bool.noConfusion hla
    have hsplit : tr.filter isLaunchEv
        = (sortInts serverKeysIter).map Event.launchServer ++ jobIter.map Event.launchJob := by
      rw [htr2, List.filter_append, List.filter_append, List.filter_append, List.filter_cons]
      rw [hfA, hfB, hfC]
      have hcf : isLaunchEv Event.cancelToken = false := rfl
      rw [hcf]
      simp only [Bool.false_eq_true, if_false]
      rw [hfrest]
      simp
    rw [hsplit, List.length_append, List.length_map, List.length_map]
    have h1 : (sortInts serverKeysIter).length = b2.servers.length := by
      rw [(sortInts_perm serverKeysIter).length_eq, hpermS.length_eq]
      exact List.length_map _ _
    have h2 : jobIter.length = b2.jobs.length := by
      rw [hpermJ.length_eq]
      exact List.length_map _ _
    rw [h1, h2]

/-- Witness for C1 on a concrete run with one user server (port 8080,
whose graceful shutdown times out) and one job. -/
theorem claim_C1_witness :
    (runTrace "" [RegCall.addServer ":8080", RegCall.addJob "j" 5 0] none (fun _ => none)
        [8080, 6060] ["j"] [6060, 8080]
        (fun p => if p = 8080 then some "context deadline exceeded" else none)).count
      Event.cancelToken = 1
    ∧ Event.forceClose 8080 ∈ runTrace "" [RegCall.addServer ":8080", RegCall.addJob "j" 5 0]
        none (fun _ => none) [8080, 6060] ["j"] [6060, 8080]
        (fun p => if p = 8080 then some "context deadline exceeded" else none) := by
  have h := claim_C1 "" [RegCall.addServer ":8080", RegCall.addJob "j" 5 0] (fun _ => none)
    [8080, 6060] ["j"] [6060, 8080]
    (fun p => if p = 8080 then some "context deadline exceeded" else none)
    ⟨[(8080, ⟨":8080"⟩)], [("j", ⟨"j", 5, 0⟩)], [], []⟩
    ⟨[(8080, ⟨":8080"⟩), (6060, ⟨":6060"⟩)], [("j", ⟨"j", 5, 0⟩)], [], []⟩
    (runTrace "" [RegCall.addServer ":8080", RegCall.addJob "j" 5 0] none (fun _ => none)
      [8080, 6060] ["j"] [6060, 8080]
      (fun p => if p = 8080 then some "context deadline exceeded" else none))
    (by decide) (by decide) (fun k hk => rfl) rfl (by decide) (by decide) (by decide)
  exact ⟨h.1, h.2.2.2.1 8080 "context deadline exceeded" (by decide) (by decide)⟩

/-- Extracts the port of a server-launch event. -/
def launchPortOf : Event → Option Int
  | .launchServer p => some p
  | _ => none

theorem filterMap_launchPortOf_map (l : List Int) :
    (l.map Event.launchServer).filterMap launchPortOf = l := by
  induction l with
  | nil => rfl
  | cons p t ih => simp [List.filterMap_cons, launchPortOf, ih]

/-- A possible emission order of the "starting server" log lines of one
run: each launched server's goroutine executes
`slog.Info("starting server", ...)` (service.go:59) inside the spawned
goroutine, so every server logs exactly once but the Go scheduler may
interleave the goroutines arbitrarily — any permutation of the launched
servers is a possible emission order. -/
def StartLogOrderPossible (launchOrder emission : List Int) : Prop :=
  emission.Perm launchOrder

/-- C9 counterexample: the startup log lines are not emitted
deterministically ascending by port. For the registered port set
{8080, 8081, 6060} the launch order is the sorted `[6060, 8080, 8081]`,
but the "starting server" log lines run inside the spawned goroutines,
so both emission orders below are possible across two runs of the same
registered set: they differ from each other, and the first is not
ascending by port — refuting the parenthetical clause of the claim that
the startup log lines are emitted deterministically, ascending by port,
identically across runs. -/
theorem claim_C9_counterexample :
    sortInts (portsOf ⟨[(8080, ⟨":8080"⟩), (8081, ⟨":8081"⟩), (6060, ⟨":6060"⟩)], [], [], []⟩)
      = [6060, 8080, 8081]
    ∧ StartLogOrderPossible [6060, 8080, 8081] [8081, 8080, 6060]
    ∧ StartLogOrderPossible [6060, 8080, 8081] [6060, 8080, 8081]
    ∧ ([8081, 8080, 6060] : List Int) ≠ [6060, 8080, 8081]
    ∧ ¬ ([8081, 8080, 6060] : List Int).Sorted (· ≤ ·) := by
  refine ⟨by decide, ?_, ?_, by decide, by decide⟩
  · unfold StartLogOrderPossible
    decide
  · unfold StartLogOrderPossible
    decide

/-- C9 (amended): the order in which server execution units are launched
is deterministic — ascending by port. Whatever order Go's map iterator
yields the keys in, the launched ports (read off the trace) are exactly
`slices.Sorted` of the registered port set: two runs over the same
registered servers with different map iteration orders launch in the
same order, which is sorted ascending and covers the registered ports
exactly. The "starting server" log lines, however, are emitted inside
the spawned goroutines, so only their multiset is guaranteed — every
possible emission order covers each registered port exactly once, but
its order is scheduler-dependent and need not be ascending by port. -/
theorem claim_C9 (env : String) (calls : List RegCall) (startupResults : Nat → Option String)
    (jobIter : List String) (shutdownIter : List Int) (shutdownRes : Int → Option String)
    (b b2 : Bootstrapper)
    (hc : runCalls calls Bootstrapper.empty = .ok b)
    (hd : b.addDebugServer env = .ok b2)
    (hok : ∀ k, k < b2.startupJobs.length → startupResults k = none)
    (iter1 iter2 : List Int)
    (h1 : iter1.Perm (portsOf b2)) (h2 : iter2.Perm (portsOf b2)) :
    (runTrace env calls none startupResults iter1 jobIter shutdownIter shutdownRes).filterMap
        launchPortOf = sortInts (portsOf b2)
    ∧ (runTrace env calls none startupResults iter1 jobIter shutdownIter shutdownRes).filterMap
        launchPortOf
      = (runTrace env calls none startupResults iter2 jobIter shutdownIter
          shutdownRes).filterMap launchPortOf
    ∧ (sortInts (portsOf b2)).Sorted (· ≤ ·)
    ∧ (sortInts (portsOf b2)).Perm (portsOf b2)
    ∧ (∀ emission : List Int, StartLogOrderPossible (sortInts (portsOf b2)) emission →
        emission.Perm (portsOf b2)) := by
  have key : ∀ iter : List Int, iter.Perm (portsOf b2) →
      (runTrace env calls none startupResults iter jobIter shutdownIter shutdownRes).filterMap
        launchPortOf = sortInts (portsOf b2) := by
    intro iter hperm
    have htr2 := runTrace_success_eq env startupResults iter jobIter shutdownIter
      shutdownRes hc hd hok
    rw [htr2, List.filterMap_append, List.filterMap_append, List.filterMap_append]
    have hfA : (b2.startupJobs.map (fun j => Event.startupJobRun j.name)).filterMap
        launchPortOf = [] := by
      rw [List.filterMap_eq_nil_iff]
      intro a ha
      rcases List.mem_map.mp ha with ⟨j, hj, hevj⟩
      rw [← hevj]
      rfl
    have hfC : (jobIter.map Event.launchJob).filterMap launchPortOf = [] := by
      rw [List.filterMap_eq_nil_iff]
      intro a ha
      rcases List.mem_map.mp ha with ⟨nm, hnm, hevn⟩
      rw [← hevn]
      rfl
    have hfrest : (Event.cancelToken :: (shutdownEvents shutdownRes shutdownIter
        ++ (Event.waitAll :: (deferEvents b2.deferFns 0 ++ [Event.exitOk])))).filterMap
        launchPortOf = [] := by
      rw [List.filterMap_eq_nil_iff]
      intro a ha
      rcases List.mem_cons.mp ha with h | h
      · rw [h]
        rfl
      · rcases List.mem_append.mp h with h | h
        · rcases mem_shutdownEvents_shape h with ⟨p2, hp2, hs | hs⟩ <;> rw [hs] <;> rfl
        · rcases List.mem_cons.mp h with h | h
          · rw [h]
            rfl
          · rcases List.mem_append.mp h with h | h
            · rcases mem_deferEvents_shape h with ⟨j, g, hj⟩
              rw [hj]
              rfl
            · rw [List.mem_singleton] at h
              rw [h]
              rfl
    rw [hfA, hfC, hfrest, filterMap_launchPortOf_map]
    rw [List.nil_append, List.append_nil, List.append_nil]
    exact sortInts_eq_of_perm hperm
  refine ⟨key iter1 h1, ?_, sortInts_sorted (portsOf b2), sortInts_perm (portsOf b2),
    fun emission he => he.trans (sortInts_perm (portsOf b2))⟩
  rw [key iter1 h1, key iter2 h2]

/-- Witness for C9 on two opposite iteration orders of the same two
registered ports. -/
theorem claim_C9_witness :
    (runTrace "" [RegCall.addServer ":8081", RegCall.addServer ":8080"] none (fun _ => none)
        [8081, 8080, 6060] [] [6060] (fun _ => none)).filterMap launchPortOf
      = sortInts (portsOf ⟨[(8081, ⟨":8081"⟩), (8080, ⟨":8080"⟩), (6060, ⟨":6060"⟩)], [], [], []⟩)
    ∧ (runTrace "" [RegCall.addServer ":8081", RegCall.addServer ":8080"] none (fun _ => none)
        [8081, 8080, 6060] [] [6060] (fun _ => none)).filterMap launchPortOf
      = (runTrace "" [RegCall.addServer ":8081", RegCall.addServer ":8080"] none (fun _ => none)
        [6060, 8080, 8081] [] [6060] (fun _ => none)).filterMap launchPortOf := by
  have h := claim_C9 "" [RegCall.addServer ":8081", RegCall.addServer ":8080"] (fun _ => none)
    [] [6060] (fun _ => none)
    ⟨[(8081, ⟨":8081"⟩), (8080, ⟨":8080"⟩)], [], [], []⟩
    ⟨[(8081, ⟨":8081"⟩), (8080, ⟨":8080"⟩), (6060, ⟨":6060"⟩)], [], [], []⟩
    (by decide) (by decide) (fun k hk => rfl)
    [8081, 8080, 6060] [6060, 8080, 8081] (by decide) (by decide)
  exact ⟨h.1, h.2.1⟩

theorem splitOnColon_no_colon (l : List Char) (h : ':' ∉ l) : splitOnColon l = [l] := by
  induction l with
  | nil => rfl
  | cons c t ih =>
    have hc : ¬(c = ':') := fun he => h (he ▸ List.mem_cons_self c t)
    have ht : ':' ∉ t := fun hm => h (List.mem_cons_of_mem c hm)
    simp [splitOnColon, hc, ih ht]

theorem splitHostPort_colon_prefix (s2 : String) (h : ':' ∉ s2.data) :
    splitHostPort (":" ++ s2) = .ok ("", s2) := by
  unfold splitHostPort
  have hdata : (":" ++ s2).data = ':' :: s2.data := by
    rw [String.data_append]
    rfl
  rw [hdata]
  have hsplit : splitOnColon (':' :: s2.data) = [[], s2.data] := by
    simp [splitOnColon, splitOnColon_no_colon s2.data h]
  rw [hsplit]

theorem AddServer_dup {b : Bootstrapper} {srv : GoServer} {host port : String} {p : Int}
    (hsp : splitHostPort srv.addr = .ok (host, port)) (hat : atoi port = .ok p)
    (hdup : (b.servers.lookup p).isSome = true) :
    b.AddServer srv = .error "server already added" := by
  unfold Bootstrapper.AddServer
  rw [hsp]
  simp only []
  rw [hat]
  simp only []
  rw [if_pos hdup]

theorem AddServer_fresh {b : Bootstrapper} {srv : GoServer} {host port : String} {p : Int}
    (hsp : splitHostPort srv.addr = .ok (host, port)) (hat : atoi port = .ok p)
    (hfresh : b.servers.lookup p = none) :
    b.AddServer srv = .ok { b with servers := b.servers ++ [(p, srv)] } := by
  unfold Bootstrapper.AddServer
  rw [hsp]
  simp only []
  rw [hat]
  simp only []
  rw [if_neg (by rw [hfresh]; simp)]

/-- C10: after the user's configuration function returns and before any
startup job executes, `Run` registers one additional debug server whose
port comes from `DEBUG_PORT` (default `6060` when unset): its entry is
appended after every user-registered server, it is launched and receives
a graceful shutdown attempt like every other server, and a user server
already registered on the same port makes the process exit fatally with
the duplicate-server error, before any startup job, server or job runs. -/
theorem claim_C10 (env : String) (p : Int) (b b2 : Bootstrapper)
    (calls : List RegCall) (startupResults : Nat → Option String)
    (serverKeysIter : List Int) (jobIter : List String) (shutdownIter : List Int)
    (shutdownRes : Int → Option String)
    (henv : env ≠ "") (hnc : ':' ∉ env.data) (hat : atoi env = .ok p) :
    (∀ b0 : Bootstrapper, b0.servers.lookup 6060 = none →
      b0.addDebugServer "" = .ok { b0 with servers := b0.servers ++ [(6060, ⟨":6060"⟩)] })
    ∧ (∀ b0 : Bootstrapper, (b0.servers.lookup 6060).isSome = true →
      b0.addDebugServer "" = .error "server already added")
    ∧ (b.servers.lookup p = none →
        b.addDebugServer env = .ok { b with servers := b.servers ++ [(p, ⟨":" ++ env⟩)] })
    ∧ ((b.servers.lookup p).isSome = true →
        b.addDebugServer env = .error "server already added")
    ∧ (∀ m, runCalls calls Bootstrapper.empty = .ok b →
        b.addDebugServer env = .error m →
        runTrace env calls none startupResults serverKeysIter jobIter shutdownIter shutdownRes
          = [Event.fatalExit m])
    ∧ (runCalls calls Bootstrapper.empty = .ok b →
        b.addDebugServer env = .ok b2 →
        (∀ k, k < b2.startupJobs.length → startupResults k = none) →
        serverKeysIter.Perm (portsOf b2) →
        shutdownIter.Perm (portsOf b2) →
        b2.servers = b.servers ++ [(p, ⟨":" ++ env⟩)]
        ∧ Event.launchServer p ∈ runTrace env calls none startupResults serverKeysIter
            jobIter shutdownIter shutdownRes
        ∧ Event.shutdownAttempt p ∈ runTrace env calls none startupResults serverKeysIter
            jobIter shutdownIter shutdownRes) := by
  have hsp6 : splitHostPort ((⟨":6060"⟩ : GoServer).addr) = .ok ("", "6060") := by decide
  have hat6 : atoi "6060" = .ok 6060 := by decide
  have hspe : splitHostPort ((⟨":" ++ env⟩ : GoServer).addr) = .ok ("", env) :=
    splitHostPort_colon_prefix env hnc
  have hdbg : b.addDebugServer env = b.AddServer ⟨":" ++ env⟩ := by
    unfold Bootstrapper.addDebugServer
    rw [if_neg henv]
  refine ⟨?_, ?_, ?_, ?_, ?_, ?_⟩
  · intro b0 hfresh
    have hdbg0 : b0.addDebugServer "" = b0.AddServer ⟨":6060"⟩ := rfl
    rw [hdbg0]
    exact AddServer_fresh hsp6 hat6 hfresh
  · intro b0 hdup
    have hdbg0 : b0.addDebugServer "" = b0.AddServer ⟨":6060"⟩ := rfl
    rw [hdbg0]
    exact AddServer_dup hsp6 hat6 hdup
  · intro hfresh
    rw [hdbg]
    exact AddServer_fresh hspe hat hfresh
  · intro hdup
    rw [hdbg]
    exact AddServer_dup hspe hat hdup
  · intro m hc hderr
    exact runTrace_debugError_eq env startupResults serverKeysIter jobIter shutdownIter
      shutdownRes hc hderr
  · intro hc hdok hok hpermS hperm
    have hshape : b2.servers = b.servers ++ [(p, ⟨":" ++ env⟩)] := by
      rw [hdbg] at hdok
      rcases AddServer_ok_shape hdok with ⟨host2, port2, p2, hsp2, hat2, hlk2, hb2⟩
      rw [hspe] at hsp2
      rw [Except.ok.injEq, Prod.mk.injEq] at hsp2
      rw [← hsp2.2] at hat2
      rw [hat] at hat2
      rw [Except.ok.injEq] at hat2
      rw [hb2, ← hat2]
    have hpmem : p ∈ portsOf b2 := by
      rw [portsOf, hshape, List.map_append]
      exact List.mem_append_right _ (by simp)
    have htr2 := runTrace_success_eq env startupResults serverKeysIter jobIter shutdownIter
      shutdownRes hc hdok hok
    refine ⟨hshape, ?_, ?_⟩
    · rw [htr2]
      have hmem : Event.launchServer p ∈ (sortInts serverKeysIter).map Event.launchServer := by
        refine List.mem_map_of_mem _ ?_
        have : p ∈ serverKeysIter := hpermS.symm.mem_iff.mp hpmem
        exact (sortInts_perm serverKeysIter).mem_iff.mpr this
      exact List.mem_append_right _ (List.mem_append_left _ hmem)
    · rw [htr2]
      have hmem : Event.shutdownAttempt p ∈ shutdownEvents shutdownRes shutdownIter :=
        shutdownAttempt_mem_shutdownEvents (hperm.symm.mem_iff.mp hpmem)
      exact List.mem_append_right _ (List.mem_append_right _ (List.mem_append_right _
        (List.mem_cons_of_mem _ (List.mem_append_left _ hmem))))

/-- Witness for C10 at the concrete environment value "7070": the debug
server is appended on port 7070, and a user server already on 7070 turns
the run into an immediate fatal exit. -/
theorem claim_C10_witness :
    Bootstrapper.empty.addDebugServer "7070"
      = .ok { Bootstrapper.empty with
          servers := Bootstrapper.empty.servers ++ [(7070, ⟨":7070"⟩)] }
    ∧ runTrace "7070" [RegCall.addServer ":7070"] none (fun _ => none) [] [] []
        (fun _ => none)
      = [Event.fatalExit "server already added"] := by
  have h1 := claim_C10 "7070" 7070 Bootstrapper.empty Bootstrapper.empty
    [] (fun _ => none) [] [] [] (fun _ => none)
    (by decide) (by decide) (by decide)
  have h2 := claim_C10 "7070" 7070
    ⟨[(7070, ⟨":7070"⟩)], [], [], []⟩ Bootstrapper.empty
    [RegCall.addServer ":7070"] (fun _ => none) [] [] [] (fun _ => none)
    (by decide) (by decide) (by decide)
  refine ⟨h1.2.2.1 rfl, ?_⟩
  · have hlk : ((⟨[(7070, ⟨":7070"⟩)], [], [], []⟩ : Bootstrapper).servers.lookup
        (7070 : Int)).isSome = true := by decide
    exact h2.2.2.2.2.1 "server already added" (by decide) (h2.2.2.2.1 hlk)

end Bespoke
